import Mathlib

/-!
Verification of the hybrid score-fusion core of the DAT409 hybrid-search
workshop repository.

The Python sources embedded here are:
  * `hybrid_search`   (lab2-mcp-agent/lab2_mcp_demo.py:333, streamlit_app.py:1062)
  * `rrf_search`      (lab2-mcp-agent/streamlit_app.py:1097)
  * `hybrid_search`   (code/streamlit_app.py:179, the three-method weighted
    fusion with the fulltext score cap; named `code_hybrid_search` below)
  * `rerank_results`  (lab2-mcp-agent/streamlit_app.py:1127, lab2_mcp_demo.py:186)

Modelling conventions:
  * Python floats are modelled as rationals (`ℚ`).
  * A Python `dict` (insertion ordered) is an association list; assignment
    `d[k] = v` replaces in place when the key is present and appends otherwise.
  * `sorted(xs, key := f, reverse := True)` is a stable sort; its semantics is
    the unique permutation ordered by the key descending with the original
    position as tiebreak, embedded via `insertionSort` over the enumerated list.
  * The retrieval providers (SQL/embedding calls) are external collaborators;
    the fusion functions take their already-fetched result lists as arguments,
    and the reranker takes the external model invocation as a function argument.
  * Division by a rational denominator that is `0` would be a Python
    `ZeroDivisionError`; where a function can hit one at the top (weight
    normalisation) it returns `Except`.  The `1/(k + rank)` divisions in
    `rrf_search` have nonzero denominators whenever `0 ≤ k` since every rank
    is at least 1; all theorems about `rrf_search` assume `0 < k` or use a
    concrete nonnegative `k`, so total `ℚ` division agrees with Python there.
-/

/-! ### Python dict as an insertion-ordered association list -/

abbrev Dict (α : Type) := List (String × α)

def dictSet {α : Type} : Dict α → String → α → Dict α
  | [], k, v => [(k, v)]
  | (k0, v0) :: rest, k, v =>
      if k0 = k then (k, v) :: rest else (k0, v0) :: dictSet rest k v

def dictGet {α : Type} : Dict α → String → Option α
  | [], _ => none
  | (k0, v0) :: rest, k => if k0 = k then some v0 else dictGet rest k

def dictGetD {α : Type} (d : Dict α) (k : String) (dflt : α) : α :=
  (dictGet d k).getD dflt

def dkeys {α : Type} (d : Dict α) : List String := d.map Prod.fst

/-- Effect of a dict assignment on the ordered key list. -/
def seenInsert (ks : List String) (k : String) : List String :=
  if k ∈ ks then ks else ks ++ [k]

/-- The distinct ids of `l` in first-encountered order. -/
def firstSeen (l : List String) : List String := l.foldl seenInsert []

/-- 0-based position of the first occurrence of `k` in `l`. -/
def posIn (k : String) : List String → ℕ
  | [] => 0
  | k0 :: rest => if k0 = k then 0 else posIn k rest + 1

/-! ### Result items -/

/-- A search result row of the lab2 apps.  `payload` stands for all the
carried display fields of the Python dict (title, description, category,
price, stars, reviews, imgUrl, productUrl) that fusion never touches. -/
structure RItem where
  id : String
  score : ℚ
  payload : String
  method : String
  rerank_score : Option ℚ := none
deriving DecidableEq

instance : Inhabited RItem := ⟨{ id := "", score := 0, payload := "", method := "" }⟩

def idsOf (l : List RItem) : List String := l.map RItem.id

/-- Raw score of `pid` in a method result set (`0` when absent). -/
def rawScore (s : List RItem) (pid : String) : ℚ :=
  match s.find? (fun r => r.id == pid) with
  | some r => r.score
  | none => 0

/-! ### Python `sorted(..., key := f, reverse := True)` -/

/-- Comparison used by a stable descending sort on enumerated elements:
key strictly greater first, original position as tiebreak. -/
def pyKeyLe {α : Type} (key : α → ℚ) (a b : ℕ × α) : Prop :=
  key b.2 < key a.2 ∨ (key a.2 = key b.2 ∧ a.1 ≤ b.1)

instance {α : Type} (key : α → ℚ) : DecidableRel (pyKeyLe key) := fun a b => by
  unfold pyKeyLe; infer_instance

instance {α : Type} (key : α → ℚ) : IsTotal (ℕ × α) (pyKeyLe key) := by
  constructor
  intro a b
  rcases lt_trichotomy (key a.2) (key b.2) with h | h | h
  · exact Or.inr (Or.inl h)
  · rcases Nat.le_total a.1 b.1 with h2 | h2
    · exact Or.inl (Or.inr ⟨h, h2⟩)
    · exact Or.inr (Or.inr ⟨h.symm, h2⟩)
  · exact Or.inl (Or.inl h)

instance {α : Type} (key : α → ℚ) : IsTrans (ℕ × α) (pyKeyLe key) := by
  constructor
  intro a b c hab hbc
  rcases hab with h1 | ⟨e1, i1⟩
  · rcases hbc with h2 | ⟨e2, _⟩
    · exact Or.inl (h2.trans h1)
    · exact Or.inl (e2 ▸ h1)
  · rcases hbc with h2 | ⟨e2, i2⟩
    · exact Or.inl (e1 ▸ h2)
    · exact Or.inr ⟨e1.trans e2, i1.trans i2⟩

/-- The stable sort `sorted(l, key := key, reverse := True)` on the enumerated list, indices
kept (used in proofs). -/
def sortEnum {α : Type} (key : α → ℚ) (l : List α) : List (ℕ × α) :=
  l.enum.insertionSort (pyKeyLe key)

/-- Python `sorted(l, key := key, reverse := True)`: stable descending sort. -/
def pySortedDesc {α : Type} (key : α → ℚ) (l : List α) : List α :=
  (sortEnum key l).map Prod.snd

/-! ### lab2 `hybrid_search` (lab2_mcp_demo.py:333 / streamlit_app.py:1062).

The two sources are line-for-line identical up to the method label
(`'Hybrid'` versus `'Hybrid (Weighted)'`); one label is fixed here. -/

def zeroDivisionError : String := "ZeroDivisionError"

def hybridMethodLabel : String := "Hybrid (Weighted)"

/-- Loop body of `for result in semantic_results`:
`product_scores[pid] = result['score'] * semantic_weight`;
`product_data[pid] = result`. -/
def hybridStep1 (sw : ℚ) (acc : Dict ℚ × Dict RItem) (r : RItem) :
    Dict ℚ × Dict RItem :=
  (dictSet acc.1 r.id (r.score * sw), dictSet acc.2 r.id r)

/-- Loop body of `for result in keyword_results`: add to the score when the
id is present, otherwise insert score and payload. -/
def hybridStep2 (kw : ℚ) (acc : Dict ℚ × Dict RItem) (r : RItem) :
    Dict ℚ × Dict RItem :=
  match dictGet acc.1 r.id with
  | some s => (dictSet acc.1 r.id (s + r.score * kw), acc.2)
  | none => (dictSet acc.1 r.id (r.score * kw), dictSet acc.2 r.id r)

/-- The lab2 `hybrid_search` with the provider calls factored out: the semantic and
keyword result sets are taken as arguments. -/
def hybrid_search (semantic_weight keyword_weight : ℚ)
    (semantic_results keyword_results : List RItem) (limit : ℕ) :
    Except String (List RItem) :=
  let total := semantic_weight + keyword_weight
  if total = 0 then .error zeroDivisionError else
  let sw := semantic_weight / total
  let kw := keyword_weight / total
  let acc1 := semantic_results.foldl (hybridStep1 sw) ([], [])
  let acc2 := keyword_results.foldl (hybridStep2 kw) acc1
  .ok (((pySortedDesc Prod.snd acc2.1).take limit).map (fun p =>
    { (dictGet acc2.2 p.1).getD default with score := p.2, method := hybridMethodLabel }))

/-! ### lab2 `rrf_search` (streamlit_app.py:1097) -/

def rrfMethodLabel : String := "Hybrid (RRF)"

/-- Loop body for the semantic pass of `rrf_search`
(`enumerate(semantic_results, 1)` supplies `ir.1` as the 1-based rank):
accumulate `1/(k + rank)` and overwrite `product_data[pid]`. -/
def rrfStepSem (k : ℚ) (acc : Dict ℚ × Dict RItem) (ir : ℕ × RItem) :
    Dict ℚ × Dict RItem :=
  (dictSet acc.1 ir.2.id (dictGetD acc.1 ir.2.id 0 + 1 / (k + (ir.1 : ℚ))),
   dictSet acc.2 ir.2.id ir.2)

/-- Loop body for the keyword and fuzzy passes of `rrf_search`: accumulate
`1/(k + rank)`; set `product_data[pid]` only when the id is new. -/
def rrfStepOther (k : ℚ) (acc : Dict ℚ × Dict RItem) (ir : ℕ × RItem) :
    Dict ℚ × Dict RItem :=
  (dictSet acc.1 ir.2.id (dictGetD acc.1 ir.2.id 0 + 1 / (k + (ir.1 : ℚ))),
   if (dictGet acc.2 ir.2.id).isSome then acc.2 else dictSet acc.2 ir.2.id ir.2)

/-- The lab2 `rrf_search` with the provider calls factored out. -/
def rrf_search (k : ℚ)
    (semantic_results keyword_results fuzzy_results : List RItem) (limit : ℕ) :
    List RItem :=
  let acc1 := (semantic_results.enumFrom 1).foldl (rrfStepSem k) ([], [])
  let acc2 := (keyword_results.enumFrom 1).foldl (rrfStepOther k) acc1
  let acc3 := (fuzzy_results.enumFrom 1).foldl (rrfStepOther k) acc2
  ((pySortedDesc Prod.snd acc3.1).take limit).map (fun p =>
    { (dictGet acc3.2 p.1).getD default with score := p.2, method := rrfMethodLabel })

/-! ### code `hybrid_search` (code/streamlit_app.py:179), three methods with
the ad hoc fulltext score cap -/

/-- One row of a method result set in code/streamlit_app.py
(`doc_id, content, persona, timestamp, severity, score`). -/
structure Row where
  doc_id : String
  content : String
  persona : String
  timestamp : String
  severity : String
  score : ℚ
deriving DecidableEq

/-- The per-document record accumulated in `combined_scores`. -/
structure Combined where
  content : String
  persona : String
  timestamp : String
  severity : String
  s_semantic : ℚ
  s_trigram : ℚ
  s_fulltext : ℚ
  combined_score : ℚ
deriving DecidableEq

inductive MKey
  | semantic
  | trigram
  | fulltext
deriving DecidableEq

def docIdsOf (l : List Row) : List String := l.map Row.doc_id

/-- The fresh record created when `doc_id not in combined_scores`. -/
def initCombined (r : Row) : Combined :=
  { content := r.content, persona := r.persona, timestamp := r.timestamp,
    severity := r.severity, s_semantic := 0, s_trigram := 0, s_fulltext := 0,
    combined_score := 0 }

def setMethodScore (c : Combined) (m : MKey) (s : ℚ) : Combined :=
  match m with
  | .semantic => { c with s_semantic := s }
  | .trigram => { c with s_trigram := s }
  | .fulltext => { c with s_fulltext := s }

/-- The cap `score = min(score, 1.0) if score else 0`, applied only to fulltext. -/
def capScore (m : MKey) (s : ℚ) : ℚ :=
  if m = .fulltext then (if s = 0 then 0 else min s 1) else s

/-- Loop body of the per-method result loop in code/streamlit_app.py. -/
def codeStep (m : MKey) (w : ℚ) (acc : Dict Combined) (r : Row) : Dict Combined :=
  let cur := dictGetD acc r.doc_id (initCombined r)
  let s := capScore m r.score
  dictSet acc r.doc_id
    { setMethodScore cur m s with combined_score := cur.combined_score + s * w }

/-- The three-method weighted `hybrid_search` of code/streamlit_app.py; its
output is the sorted, truncated list of `(doc_id, record)` pairs. -/
def code_hybrid_search (w_semantic w_trigram w_fulltext : ℚ)
    (semantic_results trigram_results fulltext_results : List Row) (limit : ℕ) :
    Except String (List (String × Combined)) :=
  let total := w_semantic + w_trigram + w_fulltext
  if total = 0 then .error zeroDivisionError else
  let d1 := semantic_results.foldl (codeStep .semantic (w_semantic / total)) []
  let d2 := trigram_results.foldl (codeStep .trigram (w_trigram / total)) d1
  let d3 := fulltext_results.foldl (codeStep .fulltext (w_fulltext / total)) d2
  .ok ((pySortedDesc (fun p => p.2.combined_score) d3).take limit)

/-! ### `rerank_results` (streamlit_app.py:1127).  The external Bedrock call,
JSON round trip included, is the function argument `invoke`; its parsed
success value is the `(index, relevance_score)` list.  An exception anywhere
inside the `try` block (model failure, malformed output, an out-of-range
index) takes the fallback branch `results[:top_k]`. -/

def rerank_results
    (invoke : String → List String → ℕ → Except String (List (ℕ × ℚ)))
    (query : String) (results : List RItem) (top_k : ℕ) : List RItem :=
  if results.isEmpty then [] else
  let documents := results.map RItem.payload
  match invoke query documents (min top_k results.length) with
  | .error _ => results.take top_k
  | .ok items =>
      if items.all (fun it => it.1 < results.length) then
        items.map (fun it =>
          { results.getD it.1 default with rerank_score := some it.2 })
      else results.take top_k

/-! ### Spec-side formulas used in claim statements -/

/-- The spec's RRF contribution of one method result set to an id:
`1/(k + r)` with `r` the 1-based position when the id occurs, else `0`. -/
def specContrib (k : ℚ) (s : List RItem) (pid : String) : ℚ :=
  if pid ∈ idsOf s then 1 / (k + ((posIn pid (idsOf s) + 1 : ℕ) : ℚ)) else 0

/-- Raw score of `pid` in a code-app method result set (`0` when absent). -/
def rawRowScore (s : List Row) (pid : String) : ℚ :=
  match s.find? (fun r => r.doc_id == pid) with
  | some r => r.score
  | none => 0

/-- The strict order realised by the stable descending sort. -/
def pyKeyLt {α : Type} (key : α → ℚ) (a b : ℕ × α) : Prop :=
  key b.2 < key a.2 ∨ (key a.2 = key b.2 ∧ a.1 < b.1)

/-! ### The two-dict loop invariant of the lab2 fusion functions -/

/-- Invariant tying `product_scores` and `product_data` together: same keys in
the same order, and `product_data` maps each id to an item carrying it. -/
def GoodAcc (acc : Dict ℚ × Dict RItem) : Prop :=
  dkeys acc.1 = dkeys acc.2 ∧ ∀ pid v, dictGet acc.2 pid = some v → v.id = pid

/-! ### Accumulated states of the fusion loops -/

def hybridAcc (sw kw : ℚ) (S K : List RItem) : Dict ℚ × Dict RItem :=
  K.foldl (hybridStep2 kw) (S.foldl (hybridStep1 sw) ([], []))

def rrfAcc (k : ℚ) (s1 s2 s3 : List RItem) : Dict ℚ × Dict RItem :=
  (s3.enumFrom 1).foldl (rrfStepOther k)
    ((s2.enumFrom 1).foldl (rrfStepOther k)
      ((s1.enumFrom 1).foldl (rrfStepSem k) ([], [])))

def codeAcc (ws wt wf : ℚ) (S T F : List Row) : Dict Combined :=
  F.foldl (codeStep .fulltext wf)
    (T.foldl (codeStep .trigram wt) (S.foldl (codeStep .semantic ws) []))

/-! ### code `hybrid_search` accumulator characterisation -/

/-- The value written for `doc_id` by one iteration of the code-app loop. -/
def codeUpd (m : MKey) (w : ℚ) (r : Row) (o : Option Combined) : Combined :=
  let cur := o.getD (initCombined r)
  let s := capScore m r.score
  { setMethodScore cur m s with combined_score := cur.combined_score + s * w }

/-- The `combined_score` of an optional record, `0` when absent. -/
def combOf (o : Option Combined) : ℚ :=
  match o with
  | some c => c.combined_score
  | none => 0

/-- The payload fields of a code-app record (content, persona, timestamp,
severity), which fusion carries through unchanged. -/
def payOf (c : Combined) : String × String × String × String :=
  (c.content, c.persona, c.timestamp, c.severity)

def payRow (r : Row) : String × String × String × String :=
  (r.content, r.persona, r.timestamp, r.severity)

/-! ### Concrete sample items used by witnesses and counterexamples -/

def xSem : RItem := { id := "x", score := 9/10, payload := "px", method := "Semantic" }

def ySem : RItem := { id := "y", score := 1/2, payload := "py", method := "Semantic" }

def yKey : RItem := { id := "y", score := 4/5, payload := "qy", method := "Keyword" }

def zKey : RItem := { id := "z", score := 3/10, payload := "qz", method := "Keyword" }

def rrfItemX : RItem :=
  { id := "x", score := 1/61, payload := "px", method := rrfMethodLabel }

def rrfItemY : RItem :=
  { id := "y", score := 1/61, payload := "qy", method := rrfMethodLabel }

def rowSemD1 : Row :=
  { doc_id := "d1", content := "log one", persona := "ops", timestamp := "t1",
    severity := "high", score := 2 }

def rowFtD1 : Row :=
  { doc_id := "d1", content := "log one ft", persona := "ops2", timestamp := "t2",
    severity := "low", score := 2 }

def codeRecD1 : Combined :=
  { content := "log one", persona := "ops", timestamp := "t1", severity := "high",
    s_semantic := 2, s_trigram := 0, s_fulltext := 1, combined_score := 1 }

/-- Combined weighted score of an id as computed by the lab2 `hybrid_search`
with raw weights `w1` (semantic) and `w2` (keyword), after normalisation. -/
def scoreW (w1 w2 : ℚ) (S K : List RItem) (pid : String) : ℚ :=
  rawScore S pid * (w1 / (w1 + w2)) + rawScore K pid * (w2 / (w1 + w2))

def wItemX : RItem :=
  { id := "x", score := 63/100, payload := "px", method := hybridMethodLabel }

def wItemY : RItem :=
  { id := "y", score := 59/100, payload := "py", method := hybridMethodLabel }

def wItemZ : RItem :=
  { id := "z", score := 9/100, payload := "qz", method := hybridMethodLabel }

/-! ### Dictionary lemmas -/

lemma dictGet_dictSet {α : Type} (d : Dict α) (k k2 : String) (v : α) :
    dictGet (dictSet d k v) k2 = if k = k2 then some v else dictGet d k2 := by
  induction d with
  | nil => simp [dictSet, dictGet, eq_comm]
  | cons q t ih =>
      obtain ⟨k0, v0⟩ := q
      by_cases h1 : k0 = k
      · subst h1
        by_cases h2 : k0 = k2 <;> simp [dictSet, dictGet, h2]
      · by_cases h2 : k0 = k2
        · subst h2
          have h3 : ¬ k = k0 := fun he => h1 he.symm
          simp [dictSet, dictGet, h1, h3]
        · simp [dictSet, dictGet, h1, h2, ih]

lemma dkeys_dictSet {α : Type} (d : Dict α) (k : String) (v : α) :
    dkeys (dictSet d k v) = seenInsert (dkeys d) k := by
  induction d with
  | nil => simp [dictSet, dkeys, seenInsert]
  | cons q t ih =>
      obtain ⟨k0, v0⟩ := q
      by_cases h1 : k0 = k
      · subst h1
        simp [dictSet, dkeys, seenInsert]
      · have hd : dictSet ((k0, v0) :: t) k v = (k0, v0) :: dictSet t k v := by
          simp [dictSet, h1]
        rw [hd]
        have hc : dkeys ((k0, v0) :: dictSet t k v) = k0 :: dkeys (dictSet t k v) := rfl
        rw [hc, ih]
        have hne : ¬ k = k0 := fun he => h1 he.symm
        have hck : dkeys ((k0, v0) :: t) = k0 :: dkeys t := rfl
        rw [seenInsert, seenInsert, hck]
        by_cases h2 : k ∈ dkeys t
        · rw [if_pos h2, if_pos (List.mem_cons_of_mem k0 h2)]
        · rw [if_neg h2, if_neg (by simp [hne, h2])]
          simp

lemma dictGet_isSome_iff {α : Type} (d : Dict α) (k : String) :
    (dictGet d k).isSome ↔ k ∈ dkeys d := by
  induction d with
  | nil => simp [dictGet, dkeys]
  | cons q t ih =>
      obtain ⟨k0, v0⟩ := q
      by_cases h1 : k0 = k
      · simp [dictGet, dkeys, h1]
      · have hne : ¬ k = k0 := fun he => h1 he.symm
        simp [dictGet, dkeys, h1, hne, ih]

lemma dictGet_eq_none_iff {α : Type} (d : Dict α) (k : String) :
    dictGet d k = none ↔ k ∉ dkeys d := by
  rw [← dictGet_isSome_iff, Option.isSome_iff_ne_none]
  tauto

lemma mem_of_dictGet_eq_some {α : Type} {d : Dict α} {k : String} {v : α}
    (h : dictGet d k = some v) : (k, v) ∈ d := by
  induction d with
  | nil => simp [dictGet] at h
  | cons p t ih =>
      obtain ⟨k0, v0⟩ := p
      by_cases h1 : k0 = k
      · subst h1
        simp [dictGet] at h
        simp [h]
      · simp [dictGet, h1] at h
        simp [ih h]

lemma dictGet_eq_some_of_mem {α : Type} {d : Dict α} {p : String × α}
    (hn : (dkeys d).Nodup) (h : p ∈ d) : dictGet d p.1 = some p.2 := by
  induction d with
  | nil => simp at h
  | cons q t ih =>
      obtain ⟨k0, v0⟩ := q
      have hn2 : k0 ∉ dkeys t ∧ (dkeys t).Nodup := by
        simpa [dkeys] using hn
      rcases List.mem_cons.mp h with h2 | h2
      · subst h2
        simp [dictGet]
      · have hk : k0 ≠ p.1 := by
          intro he
          exact hn2.1 (by rw [he]; exact List.mem_map_of_mem Prod.fst h2)
        simp [dictGet, hk, ih hn2.2 h2]

/-! ### `seenInsert`, `firstSeen`, `posIn` -/

lemma mem_seenInsert {ks : List String} {a k : String} :
    a ∈ seenInsert ks k ↔ a ∈ ks ∨ a = k := by
  by_cases h : k ∈ ks
  · simp only [seenInsert, if_pos h]
    constructor
    · exact Or.inl
    · rintro (h2 | rfl) <;> assumption
  · simp [seenInsert, if_neg h]

lemma nodup_seenInsert {ks : List String} (hn : ks.Nodup) (k : String) :
    (seenInsert ks k).Nodup := by
  by_cases h : k ∈ ks
  · simpa [seenInsert, if_pos h] using hn
  · rw [seenInsert, if_neg h]
    simp [List.nodup_append, hn, h]

lemma nodup_foldl_seenInsert (l : List String) :
    ∀ ks : List String, ks.Nodup → (l.foldl seenInsert ks).Nodup := by
  induction l with
  | nil => intro ks h; simpa using h
  | cons a t ih => intro ks h; exact ih _ (nodup_seenInsert h a)

lemma mem_foldl_seenInsert (l : List String) :
    ∀ (ks : List String) (a : String), a ∈ l.foldl seenInsert ks ↔ a ∈ ks ∨ a ∈ l := by
  induction l with
  | nil => intro ks a; simp
  | cons b t ih =>
      intro ks a
      simp only [List.foldl_cons, ih, mem_seenInsert, List.mem_cons]
      tauto

lemma firstSeen_nodup (l : List String) : (firstSeen l).Nodup :=
  nodup_foldl_seenInsert l [] List.nodup_nil

lemma mem_firstSeen (l : List String) (a : String) : a ∈ firstSeen l ↔ a ∈ l := by
  simp [firstSeen, mem_foldl_seenInsert]

lemma posIn_lt_length {k : String} : ∀ {l : List String}, k ∈ l → posIn k l < l.length := by
  intro l
  induction l with
  | nil => simp
  | cons a t ih =>
      intro h
      by_cases h1 : a = k
      · simp [posIn, h1]
      · rcases List.mem_cons.mp h with h2 | h2
        · exact absurd h2.symm h1
        · simpa [posIn, h1] using ih h2

lemma getElem_posIn {k : String} : ∀ {l : List String} (h : k ∈ l),
    l.get ⟨posIn k l, posIn_lt_length h⟩ = k := by
  intro l
  induction l with
  | nil => simp
  | cons a t ih =>
      intro h
      by_cases h1 : a = k
      · simp [posIn, h1]
      · rcases List.mem_cons.mp h with h2 | h2
        · exact absurd h2.symm h1
        · simp only [posIn, h1, if_false]
          simpa using ih h2

lemma posIn_getElem_of_nodup : ∀ {l : List String}, l.Nodup →
    ∀ (i : Fin l.length), posIn (l.get i) l = i.val := by
  intro l
  induction l with
  | nil =>
      intro _ i
      exact absurd i.isLt (by simp)
  | cons a t ih =>
      intro hn i
      match i with
      | ⟨0, _⟩ => simp [posIn]
      | ⟨j + 1, hj1⟩ =>
          have hj : j < t.length := by simpa using hj1
          have hmem : t.get ⟨j, hj⟩ ∈ t := by
            rw [List.get_eq_getElem]
            exact List.getElem_mem hj
          have hne : ¬ a = t.get ⟨j, hj⟩ := by
            intro he
            exact (List.nodup_cons.mp hn).1 (he ▸ hmem)
          have hstep : (a :: t).get ⟨j + 1, hj1⟩ = t.get ⟨j, hj⟩ := rfl
          have hih := ih (List.nodup_cons.mp hn).2 ⟨j, hj⟩
          rw [hstep]
          show (if a = t.get ⟨j, hj⟩ then 0 else posIn (t.get ⟨j, hj⟩) t + 1) = j + 1
          rw [if_neg hne, hih]

/-! ### Generic characterisations of the accumulation loops -/

lemma foldl_preserves {γ β : Type} {P : γ → Prop} {step : γ → β → γ}
    (hstep : ∀ acc x, P acc → P (step acc x)) :
    ∀ (xs : List β) (acc : γ), P acc → P (xs.foldl step acc) := by
  intro xs
  induction xs with
  | nil => intro acc h; simpa using h
  | cons x t ih => intro acc h; exact ih _ (hstep acc x h)

lemma foldl_dict_keys {γ β α : Type} {f : γ → β → γ} {p : γ → Dict α}
    {g : β → String}
    (h : ∀ acc x, ∃ w, p (f acc x) = dictSet (p acc) (g x) w) :
    ∀ (xs : List β) (acc : γ),
      dkeys (p (xs.foldl f acc)) =
        (xs.map g).foldl seenInsert (dkeys (p acc)) := by
  intro xs
  induction xs with
  | nil => intro acc; rfl
  | cons x t ih =>
      intro acc
      obtain ⟨w, hw⟩ := h acc x
      simp only [List.foldl_cons, List.map_cons]
      rw [ih, hw, dkeys_dictSet]

lemma foldl_dict_get_notmem {γ β α : Type} {f : γ → β → γ} {p : γ → Dict α}
    {g : β → String}
    (h : ∀ acc x, ∃ w, p (f acc x) = dictSet (p acc) (g x) w) :
    ∀ (xs : List β) (acc : γ) (pid : String), pid ∉ xs.map g →
      dictGet (p (xs.foldl f acc)) pid = dictGet (p acc) pid := by
  intro xs
  induction xs with
  | nil => intro acc pid _; rfl
  | cons x t ih =>
      intro acc pid hmem
      have h1 : g x ≠ pid := by
        intro he
        exact hmem (by simp [he])
      have h2 : pid ∉ t.map g := by
        intro he
        exact hmem (by simp [he])
      obtain ⟨w, hw⟩ := h acc x
      rw [List.foldl_cons, ih _ pid h2, hw, dictGet_dictSet, if_neg h1]

lemma foldl_dict_upd {γ β α : Type} {f : γ → β → γ} {p : γ → Dict α}
    {g : β → String} {u : β → Option α → α}
    (h : ∀ acc x, p (f acc x) =
      dictSet (p acc) (g x) (u x (dictGet (p acc) (g x)))) :
    ∀ (xs : List β), (xs.map g).Nodup → ∀ (acc : γ) (pid : String),
      dictGet (p (xs.foldl f acc)) pid =
        match xs.find? (fun x => g x == pid) with
        | some x => some (u x (dictGet (p acc) pid))
        | none => dictGet (p acc) pid := by
  intro xs
  induction xs with
  | nil => intro _ acc pid; rfl
  | cons x t ih =>
      intro hnd acc pid
      have hnd0 : (g x :: t.map g).Nodup := by simpa using hnd
      have hx : g x ∉ t.map g := (List.nodup_cons.mp hnd0).1
      have hnd2 : (t.map g).Nodup := (List.nodup_cons.mp hnd0).2
      by_cases hk : g x = pid
      · have hfind : (x :: t).find? (fun y => g y == pid) = some x :=
          List.find?_cons_of_pos _ (by simp [hk])
        rw [List.foldl_cons, hfind]
        have hnm : pid ∉ t.map g := hk ▸ hx
        rw [foldl_dict_get_notmem (fun a y => ⟨_, h a y⟩) t _ pid hnm]
        rw [h acc x, dictGet_dictSet, if_pos hk, hk]
      · have hfind : (x :: t).find? (fun y => g y == pid) =
            t.find? (fun y => g y == pid) :=
          List.find?_cons_of_neg _ (by simp [hk])
        have hget : dictGet (p (f acc x)) pid = dictGet (p acc) pid := by
          rw [h acc x, dictGet_dictSet, if_neg hk]
        rw [List.foldl_cons, hfind, ih hnd2 (f acc x) pid, hget]

lemma foldl_dict_keep {γ β α : Type} {f : γ → β → γ} {p : γ → Dict α}
    {g : β → String} {v : β → α} {P : γ → Prop}
    (hP : ∀ acc x, P acc → P (f acc x))
    (h : ∀ acc x, P acc → p (f acc x) =
      if (dictGet (p acc) (g x)).isSome then p acc
      else dictSet (p acc) (g x) (v x)) :
    ∀ (xs : List β) (acc : γ), P acc → ∀ pid : String,
      dictGet (p (xs.foldl f acc)) pid =
        match dictGet (p acc) pid with
        | some w => some w
        | none => (xs.find? (fun x => g x == pid)).map v := by
  intro xs
  induction xs with
  | nil =>
      intro acc _ pid
      cases hg : dictGet (p acc) pid <;> simp [hg]
  | cons x t ih =>
      intro acc hPacc pid
      have hP2 : P (f acc x) := hP acc x hPacc
      by_cases hs : (dictGet (p acc) (g x)).isSome
      · have he : p (f acc x) = p acc := by rw [h acc x hPacc, if_pos hs]
        rw [List.foldl_cons, ih (f acc x) hP2 pid, he]
        cases hg : dictGet (p acc) pid with
        | some w => rfl
        | none =>
            have hk : g x ≠ pid := by
              intro he2
              rw [he2, hg] at hs
              simp at hs
            rw [List.find?_cons_of_neg _ (by simp [hk])]
      · have he : p (f acc x) = dictSet (p acc) (g x) (v x) := by
          rw [h acc x hPacc, if_neg hs]
        rw [List.foldl_cons, ih (f acc x) hP2 pid, he]
        by_cases hk : g x = pid
        · have hg0 : dictGet (p acc) pid = none := by
            rw [← hk]
            exact Option.not_isSome_iff_eq_none.mp hs
          rw [hg0]
          have hg1 : dictGet (dictSet (p acc) (g x) (v x)) pid = some (v x) := by
            rw [dictGet_dictSet, if_pos hk]
          rw [hg1, List.find?_cons_of_pos _ (by simp [hk])]
          rfl
        · have hg1 : dictGet (dictSet (p acc) (g x) (v x)) pid =
              dictGet (p acc) pid := by
            rw [dictGet_dictSet, if_neg hk]
          rw [hg1, List.find?_cons_of_neg _ (by simp [hk])]

/-! ### Sort lemmas -/

lemma enum_snd {α : Type} (l : List α) : l.enum.map Prod.snd = l := by
  rw [List.enum_eq_enumFrom]
  exact List.enumFrom_map_snd 0 l

lemma sortEnum_perm {α : Type} (key : α → ℚ) (l : List α) :
    List.Perm (sortEnum key l) l.enum :=
  List.perm_insertionSort _ _

lemma sortEnum_sorted {α : Type} (key : α → ℚ) (l : List α) :
    (sortEnum key l).Pairwise (pyKeyLe key) :=
  List.sorted_insertionSort _ _

lemma pySortedDesc_perm {α : Type} (key : α → ℚ) (l : List α) :
    List.Perm (pySortedDesc key l) l := by
  have h := (sortEnum_perm key l).map Prod.snd
  rw [enum_snd] at h
  exact h

lemma sortEnum_fst_nodup {α : Type} (key : α → ℚ) (l : List α) :
    ((sortEnum key l).map Prod.fst).Nodup := by
  have hp : List.Perm ((sortEnum key l).map Prod.fst) (l.enum.map Prod.fst) :=
    (sortEnum_perm key l).map Prod.fst
  have h2 : (l.enum.map Prod.fst).Nodup := by
    rw [List.enum_eq_enumFrom, List.enumFrom_map_fst]
    exact List.nodup_range' 0 l.length
  exact hp.symm.nodup h2

lemma sortEnum_pairwise_lt {α : Type} (key : α → ℚ) (l : List α) :
    (sortEnum key l).Pairwise (pyKeyLt key) := by
  have h1 := sortEnum_sorted key l
  have h2 : (sortEnum key l).Pairwise (fun a b => a.1 ≠ b.1) :=
    List.pairwise_map.mp (sortEnum_fst_nodup key l)
  refine (List.pairwise_and_iff.mpr ⟨h1, h2⟩).imp ?_
  rintro a b ⟨hle, hne⟩
  rcases hle with h | ⟨he, hle2⟩
  · exact Or.inl h
  · exact Or.inr ⟨he, lt_of_le_of_ne hle2 hne⟩

lemma mem_enumFrom_spec {α : Type} :
    ∀ (l : List α) (n : ℕ) (p : ℕ × α), p ∈ l.enumFrom n →
      ∃ i : ℕ, ∃ h : i < l.length, p.1 = n + i ∧ l[i] = p.2 := by
  intro l
  induction l with
  | nil => intro n p h; simp [List.enumFrom] at h
  | cons a t ih =>
      intro n p h
      rw [List.enumFrom_cons] at h
      rcases List.mem_cons.mp h with h2 | h2
      · exact ⟨0, by simp, by simp [h2]⟩
      · obtain ⟨i, hi, hp1, hp2⟩ := ih (n + 1) p h2
        refine ⟨i + 1, by simpa using hi, by omega, by simpa using hp2⟩

lemma mem_sortEnum_spec {α : Type} {key : α → ℚ} {l : List α} {p : ℕ × α}
    (hp : p ∈ sortEnum key l) :
    ∃ h : p.1 < l.length, l[p.1] = p.2 := by
  have h2 : p ∈ l.enum := ((sortEnum_perm key l).mem_iff).mp hp
  rw [List.enum_eq_enumFrom] at h2
  obtain ⟨i, hi, hp1, hp2⟩ := mem_enumFrom_spec l 0 p h2
  have : p.1 = i := by omega
  subst this
  exact ⟨hi, hp2⟩

/-- In the sort of an association list with distinct keys, the retained
enumeration index of an element is the position of its key. -/
lemma sortEnum_idx_eq_posIn {α : Type} {key : String × α → ℚ} {d : Dict α}
    (hn : (dkeys d).Nodup) {p : ℕ × (String × α)} (hp : p ∈ sortEnum key d) :
    p.1 = posIn p.2.1 (dkeys d) ∧ p.2 ∈ d := by
  obtain ⟨hlt, hget⟩ := mem_sortEnum_spec hp
  have hlen : p.1 < (dkeys d).length := by simpa [dkeys] using hlt
  have hkey : (dkeys d).get ⟨p.1, hlen⟩ = p.2.1 := by
    rw [List.get_eq_getElem]
    simp [dkeys, hget]
  have hpos := posIn_getElem_of_nodup hn ⟨p.1, hlen⟩
  rw [hkey] at hpos
  constructor
  · exact hpos.symm
  · rw [← hget]
    exact List.getElem_mem hlt

lemma goodAcc_nil : GoodAcc ([], []) := by
  constructor
  · rfl
  · intro pid v hv
    simp [dictGet] at hv

lemma goodAcc_dictSet_both {acc : Dict ℚ × Dict RItem} (h : GoodAcc acc)
    (r : RItem) (q : ℚ) : GoodAcc (dictSet acc.1 r.id q, dictSet acc.2 r.id r) := by
  obtain ⟨h1, h2⟩ := h
  constructor
  · rw [dkeys_dictSet, dkeys_dictSet, h1]
  · intro pid v hv
    rw [dictGet_dictSet] at hv
    by_cases hk : r.id = pid
    · rw [if_pos hk] at hv
      cases hv
      exact hk
    · rw [if_neg hk] at hv
      exact h2 pid v hv

lemma goodAcc_hybridStep1 (sw : ℚ) :
    ∀ (acc : Dict ℚ × Dict RItem) (r : RItem), GoodAcc acc → GoodAcc (hybridStep1 sw acc r) :=
  fun acc r h => goodAcc_dictSet_both h r _

lemma hybridStep2_scores (kw : ℚ) (acc : Dict ℚ × Dict RItem) (r : RItem) :
    (hybridStep2 kw acc r).1 =
      dictSet acc.1 r.id ((dictGet acc.1 r.id).getD 0 + r.score * kw) := by
  unfold hybridStep2
  cases hg : dictGet acc.1 r.id <;> simp [hg]

lemma hybridStep2_data (kw : ℚ) (acc : Dict ℚ × Dict RItem) (r : RItem)
    (hA : GoodAcc acc) :
    (hybridStep2 kw acc r).2 =
      if (dictGet acc.2 r.id).isSome then acc.2 else dictSet acc.2 r.id r := by
  have hiff : (dictGet acc.1 r.id).isSome ↔ (dictGet acc.2 r.id).isSome := by
    rw [dictGet_isSome_iff, dictGet_isSome_iff, hA.1]
  unfold hybridStep2
  cases hg : dictGet acc.1 r.id
  · have hns : ¬ (dictGet acc.2 r.id).isSome := by
      rw [← hiff, hg]
      simp
    simp [hns]
  · have hs : (dictGet acc.2 r.id).isSome := by
      rw [← hiff, hg]
      simp
    simp [hs]

lemma goodAcc_hybridStep2 (kw : ℚ) :
    ∀ (acc : Dict ℚ × Dict RItem) (r : RItem), GoodAcc acc → GoodAcc (hybridStep2 kw acc r) := by
  intro acc r h
  obtain ⟨h1, h2⟩ := h
  have hs := hybridStep2_scores kw acc r
  have hd := hybridStep2_data kw acc r ⟨h1, h2⟩
  constructor
  · rw [hs, hd, dkeys_dictSet]
    by_cases hg : (dictGet acc.2 r.id).isSome
    · have hmem : r.id ∈ dkeys acc.2 := (dictGet_isSome_iff _ _).mp hg
      rw [if_pos hg, h1]
      simp only [seenInsert]
      rw [if_pos hmem]
    · rw [if_neg hg, dkeys_dictSet, h1]
  · intro pid v hv
    rw [hd] at hv
    by_cases hg : (dictGet acc.2 r.id).isSome
    · rw [if_pos hg] at hv
      exact h2 pid v hv
    · rw [if_neg hg, dictGet_dictSet] at hv
      by_cases hk : r.id = pid
      · rw [if_pos hk] at hv
        cases hv
        exact hk
      · rw [if_neg hk] at hv
        exact h2 pid v hv

lemma goodAcc_rrfStepSem (k : ℚ) :
    ∀ (acc : Dict ℚ × Dict RItem) (ir : ℕ × RItem), GoodAcc acc → GoodAcc (rrfStepSem k acc ir) :=
  fun acc ir h => goodAcc_dictSet_both h ir.2 _

lemma goodAcc_rrfStepOther (k : ℚ) :
    ∀ (acc : Dict ℚ × Dict RItem) (ir : ℕ × RItem), GoodAcc acc → GoodAcc (rrfStepOther k acc ir) := by
  intro acc ir h
  obtain ⟨h1, h2⟩ := h
  unfold rrfStepOther
  by_cases hg : (dictGet acc.2 ir.2.id).isSome
  · have hmem : ir.2.id ∈ dkeys acc.2 := (dictGet_isSome_iff _ _).mp hg
    constructor
    · simp only [if_pos hg]
      rw [dkeys_dictSet, h1, seenInsert, if_pos hmem]
    · simp only [if_pos hg]
      exact h2
  · have hmem : ir.2.id ∉ dkeys acc.2 := fun hm => hg ((dictGet_isSome_iff _ _).mpr hm)
    constructor
    · simp only [if_neg hg]
      rw [dkeys_dictSet, dkeys_dictSet, h1]
    · simp only [if_neg hg]
      intro pid v hv
      rw [dictGet_dictSet] at hv
      by_cases hk : ir.2.id = pid
      · rw [if_pos hk] at hv
        cases hv
        exact hk
      · rw [if_neg hk] at hv
        exact h2 pid v hv

lemma hybrid_search_eq (sw kw : ℚ) (S K : List RItem) (L : ℕ) (h : sw + kw ≠ 0) :
    hybrid_search sw kw S K L = .ok
      (((pySortedDesc Prod.snd (hybridAcc (sw / (sw + kw)) (kw / (sw + kw)) S K).1).take L).map
        (fun p =>
          { (dictGet (hybridAcc (sw / (sw + kw)) (kw / (sw + kw)) S K).2 p.1).getD default with
              score := p.2, method := hybridMethodLabel })) := by
  unfold hybrid_search hybridAcc
  rw [if_neg h]

lemma rrf_search_eq (k : ℚ) (s1 s2 s3 : List RItem) (L : ℕ) :
    rrf_search k s1 s2 s3 L =
      ((pySortedDesc Prod.snd (rrfAcc k s1 s2 s3).1).take L).map
        (fun p => { (dictGet (rrfAcc k s1 s2 s3).2 p.1).getD default with
            score := p.2, method := rrfMethodLabel }) := rfl

lemma code_hybrid_search_eq (ws wt wf : ℚ) (S T F : List Row) (L : ℕ)
    (h : ws + wt + wf ≠ 0) :
    code_hybrid_search ws wt wf S T F L = .ok
      ((pySortedDesc (fun p => p.2.combined_score)
        (codeAcc (ws / (ws + wt + wf)) (wt / (ws + wt + wf)) (wf / (ws + wt + wf))
          S T F)).take L) := by
  unfold code_hybrid_search codeAcc
  rw [if_neg h]

lemma hybridAcc_good (sw kw : ℚ) (S K : List RItem) : GoodAcc (hybridAcc sw kw S K) :=
  foldl_preserves (goodAcc_hybridStep2 kw) K _
    (foldl_preserves (goodAcc_hybridStep1 sw) S _ goodAcc_nil)

lemma hybridAcc_keys (sw kw : ℚ) (S K : List RItem) :
    dkeys (hybridAcc sw kw S K).1 = firstSeen (idsOf S ++ idsOf K) := by
  have h2 := foldl_dict_keys (f := hybridStep2 kw) (p := Prod.fst) (g := RItem.id)
    (fun acc r => ⟨_, hybridStep2_scores kw acc r⟩) K (S.foldl (hybridStep1 sw) ([], []))
  have h1 := foldl_dict_keys (f := hybridStep1 sw) (p := Prod.fst) (g := RItem.id)
    (fun acc r => ⟨_, rfl⟩) S (([], []) : Dict ℚ × Dict RItem)
  unfold hybridAcc firstSeen
  rw [h2, h1, List.foldl_append]
  rfl

lemma find?_id_isSome_iff (s : List RItem) (pid : String) :
    (s.find? (fun r => r.id == pid)).isSome ↔ pid ∈ idsOf s := by
  rw [List.find?_isSome]
  simp [idsOf]

lemma hybridAcc_scores_val (sw kw : ℚ) {S K : List RItem}
    (hS : (idsOf S).Nodup) (hK : (idsOf K).Nodup) (pid : String)
    (hmem : pid ∈ idsOf S ++ idsOf K) :
    dictGet (hybridAcc sw kw S K).1 pid =
      some (rawScore S pid * sw + rawScore K pid * kw) := by
  unfold hybridAcc
  have e1 := foldl_dict_upd (f := hybridStep1 sw) (p := Prod.fst) (g := RItem.id)
    (u := fun r _ => r.score * sw) (fun acc r => rfl) S hS
    (([], []) : Dict ℚ × Dict RItem) pid
  have e2 := foldl_dict_upd (f := hybridStep2 kw) (p := Prod.fst) (g := RItem.id)
    (u := fun r o => o.getD 0 + r.score * kw)
    (fun acc r => hybridStep2_scores kw acc r) K hK
    (S.foldl (hybridStep1 sw) ([], [])) pid
  rw [e2, e1]
  cases hfK : K.find? (fun r => r.id == pid) with
  | some rk =>
      cases hfS : S.find? (fun r => r.id == pid) with
      | some rs => simp [rawScore, hfS, hfK]
      | none =>
          simp only [rawScore, hfS, hfK, dictGet]
          norm_num
  | none =>
      cases hfS : S.find? (fun r => r.id == pid) with
      | some rs =>
          simp only [rawScore, hfS, hfK]
          norm_num
      | none =>
          exfalso
          rcases List.mem_append.mp hmem with h | h
          · have hx := (find?_id_isSome_iff S pid).mpr h
            rw [hfS] at hx
            simp at hx
          · have hx := (find?_id_isSome_iff K pid).mpr h
            rw [hfK] at hx
            simp at hx

lemma hybridAcc_data_val (sw kw : ℚ) {S K : List RItem}
    (hS : (idsOf S).Nodup) (pid : String) :
    dictGet (hybridAcc sw kw S K).2 pid = (S ++ K).find? (fun r => r.id == pid) := by
  unfold hybridAcc
  have e1 := foldl_dict_upd (f := hybridStep1 sw) (p := Prod.snd) (g := RItem.id)
    (u := fun r _ => r) (fun acc r => rfl) S hS
    (([], []) : Dict ℚ × Dict RItem) pid
  have hgood : GoodAcc (S.foldl (hybridStep1 sw) ([], [])) :=
    foldl_preserves (goodAcc_hybridStep1 sw) S _ goodAcc_nil
  have e2 := foldl_dict_keep (f := hybridStep2 kw) (p := Prod.snd) (g := RItem.id)
    (v := fun r => r) (P := GoodAcc) (goodAcc_hybridStep2 kw)
    (fun acc r hP => hybridStep2_data kw acc r hP) K
    (S.foldl (hybridStep1 sw) ([], [])) hgood pid
  rw [e2, e1, List.find?_append]
  cases hfS : S.find? (fun r => r.id == pid) with
  | some rs => simp
  | none =>
      cases hfK : K.find? (fun r => r.id == pid) with
      | some rk => simp [dictGet]
      | none => simp [dictGet]

/-! ### RRF accumulator characterisation -/

lemma enumFrom_map_snd_id (s : List RItem) (n : ℕ) :
    (s.enumFrom n).map (fun ir => ir.2.id) = idsOf s := by
  have h : (fun ir : ℕ × RItem => ir.2.id) = (RItem.id ∘ Prod.snd) := rfl
  rw [h, ← List.map_map, List.enumFrom_map_snd]
  rfl

lemma find?_enumFrom (s : List RItem) (pid : String) :
    ∀ n : ℕ, (s.enumFrom n).find? (fun ir => ir.2.id == pid) =
      (s.find? (fun r => r.id == pid)).map (fun r => (n + posIn pid (idsOf s), r)) := by
  induction s with
  | nil => intro n; simp [List.enumFrom]
  | cons r t ih =>
      intro n
      rw [List.enumFrom_cons]
      by_cases hk : r.id = pid
      · rw [List.find?_cons_of_pos _ (by simp [hk]), List.find?_cons_of_pos _ (by simp [hk])]
        simp [idsOf, posIn, hk]
      · rw [List.find?_cons_of_neg _ (by simp [hk]), List.find?_cons_of_neg _ (by simp [hk]),
          ih (n + 1)]
        cases hf : t.find? (fun r => r.id == pid) with
        | some r2 =>
            simp [idsOf, posIn, hk]
            omega
        | none => simp

lemma rrf_pass_scores {k : ℚ}
    {step : Dict ℚ × Dict RItem → ℕ × RItem → Dict ℚ × Dict RItem}
    (hstep : ∀ (acc : Dict ℚ × Dict RItem) (ir : ℕ × RItem), (step acc ir).1 =
      dictSet acc.1 ir.2.id ((dictGet acc.1 ir.2.id).getD 0 + 1 / (k + (ir.1 : ℚ))))
    {s : List RItem} (hs : (idsOf s).Nodup) (acc : Dict ℚ × Dict RItem) (pid : String) :
    dictGet ((s.enumFrom 1).foldl step acc).1 pid =
      if pid ∈ idsOf s then some ((dictGet acc.1 pid).getD 0 + specContrib k s pid)
      else dictGet acc.1 pid := by
  have hnd : ((s.enumFrom 1).map (fun ir => ir.2.id)).Nodup := by
    rw [enumFrom_map_snd_id]
    exact hs
  have e := foldl_dict_upd (f := step) (p := Prod.fst) (g := fun ir => ir.2.id)
    (u := fun ir o => o.getD 0 + 1 / (k + (ir.1 : ℚ))) hstep
    (s.enumFrom 1) hnd acc pid
  rw [e, find?_enumFrom]
  cases hf : s.find? (fun r => r.id == pid) with
  | some r =>
      have hm : pid ∈ idsOf s := (find?_id_isSome_iff s pid).mp (by rw [hf]; rfl)
      rw [if_pos hm]
      have hc : (1 + posIn pid (idsOf s) : ℕ) = (posIn pid (idsOf s) + 1 : ℕ) :=
        Nat.add_comm 1 _
      simp [specContrib, hm, hc]
  | none =>
      have hm : pid ∉ idsOf s := by
        intro hmem
        have hx := (find?_id_isSome_iff s pid).mpr hmem
        rw [hf] at hx
        simp at hx
      rw [if_neg hm]
      simp

lemma rrf_pass1_data {k : ℚ} {s : List RItem} (hs : (idsOf s).Nodup)
    (acc : Dict ℚ × Dict RItem) (pid : String) :
    dictGet ((s.enumFrom 1).foldl (rrfStepSem k) acc).2 pid =
      match s.find? (fun r => r.id == pid) with
      | some r => some r
      | none => dictGet acc.2 pid := by
  have hnd : ((s.enumFrom 1).map (fun ir => ir.2.id)).Nodup := by
    rw [enumFrom_map_snd_id]
    exact hs
  have e := foldl_dict_upd (f := rrfStepSem k) (p := Prod.snd)
    (g := fun ir => ir.2.id) (u := fun ir _ => ir.2) (fun acc ir => rfl)
    (s.enumFrom 1) hnd acc pid
  rw [e, find?_enumFrom]
  cases hf : s.find? (fun r => r.id == pid) <;> simp

lemma rrf_passOther_data {k : ℚ} (s : List RItem)
    (acc : Dict ℚ × Dict RItem) (pid : String) :
    dictGet ((s.enumFrom 1).foldl (rrfStepOther k) acc).2 pid =
      match dictGet acc.2 pid with
      | some v => some v
      | none => s.find? (fun r => r.id == pid) := by
  have e := foldl_dict_keep (f := rrfStepOther k) (p := Prod.snd)
    (g := fun ir => ir.2.id) (v := fun ir => ir.2) (P := fun _ => True)
    (fun _ _ _ => trivial) (fun acc ir _ => rfl) (s.enumFrom 1) acc trivial pid
  rw [e, find?_enumFrom]
  cases hg : dictGet acc.2 pid <;> cases hf : s.find? (fun r => r.id == pid) <;> simp

lemma rrfAcc_good (k : ℚ) (s1 s2 s3 : List RItem) : GoodAcc (rrfAcc k s1 s2 s3) :=
  foldl_preserves (goodAcc_rrfStepOther k) _ _
    (foldl_preserves (goodAcc_rrfStepOther k) _ _
      (foldl_preserves (goodAcc_rrfStepSem k) _ _ goodAcc_nil))

lemma rrfAcc_keys (k : ℚ) (s1 s2 s3 : List RItem) :
    dkeys (rrfAcc k s1 s2 s3).1 = firstSeen (idsOf s1 ++ idsOf s2 ++ idsOf s3) := by
  have e3 := foldl_dict_keys (f := rrfStepOther k) (p := Prod.fst)
    (g := fun ir => ir.2.id) (fun acc ir => ⟨_, rfl⟩) (s3.enumFrom 1)
    ((s2.enumFrom 1).foldl (rrfStepOther k) ((s1.enumFrom 1).foldl (rrfStepSem k) ([], [])))
  have e2 := foldl_dict_keys (f := rrfStepOther k) (p := Prod.fst)
    (g := fun ir => ir.2.id) (fun acc ir => ⟨_, rfl⟩) (s2.enumFrom 1)
    ((s1.enumFrom 1).foldl (rrfStepSem k) ([], []))
  have e1 := foldl_dict_keys (f := rrfStepSem k) (p := Prod.fst)
    (g := fun ir => ir.2.id) (fun acc ir => ⟨_, rfl⟩) (s1.enumFrom 1)
    (([], []) : Dict ℚ × Dict RItem)
  unfold rrfAcc firstSeen
  rw [e3, e2, e1, enumFrom_map_snd_id, enumFrom_map_snd_id, enumFrom_map_snd_id,
    List.foldl_append, List.foldl_append]
  rfl

lemma rrfAcc_scores_val (k : ℚ) {s1 s2 s3 : List RItem}
    (h1 : (idsOf s1).Nodup) (h2 : (idsOf s2).Nodup) (h3 : (idsOf s3).Nodup)
    (pid : String) (hmem : pid ∈ idsOf s1 ++ idsOf s2 ++ idsOf s3) :
    dictGet (rrfAcc k s1 s2 s3).1 pid =
      some (specContrib k s1 pid + specContrib k s2 pid + specContrib k s3 pid) := by
  unfold rrfAcc
  rw [rrf_pass_scores (fun acc ir => rfl) h3, rrf_pass_scores (fun acc ir => rfl) h2,
      rrf_pass_scores (fun acc ir => rfl) h1]
  have hg : ∀ s : List RItem, pid ∉ idsOf s → specContrib k s pid = 0 := by
    intro s hm
    simp [specContrib, hm]
  have hb : dictGet (([], []) : Dict ℚ × Dict RItem).1 pid = none := rfl
  rw [hb]
  by_cases m1 : pid ∈ idsOf s1
  · by_cases m2 : pid ∈ idsOf s2
    · by_cases m3 : pid ∈ idsOf s3
      · rw [if_pos m1, if_pos m2, if_pos m3]
        simp only [Option.getD_some, Option.getD_none]
        try congr 1
        try ring
      · rw [if_pos m1, if_pos m2, if_neg m3, hg s3 m3]
        simp only [Option.getD_some, Option.getD_none]
        try congr 1
        try ring
    · by_cases m3 : pid ∈ idsOf s3
      · rw [if_pos m1, if_neg m2, if_pos m3, hg s2 m2]
        simp only [Option.getD_some, Option.getD_none]
        try congr 1
        try ring
      · rw [if_pos m1, if_neg m2, if_neg m3, hg s2 m2, hg s3 m3]
        simp only [Option.getD_some, Option.getD_none]
        try congr 1
        try ring
  · by_cases m2 : pid ∈ idsOf s2
    · by_cases m3 : pid ∈ idsOf s3
      · rw [if_neg m1, if_pos m2, if_pos m3, hg s1 m1]
        simp only [Option.getD_some, Option.getD_none]
        try congr 1
        try ring
      · rw [if_neg m1, if_pos m2, if_neg m3, hg s1 m1, hg s3 m3]
        simp only [Option.getD_some, Option.getD_none]
        try congr 1
        try ring
    · by_cases m3 : pid ∈ idsOf s3
      · rw [if_neg m1, if_neg m2, if_pos m3, hg s1 m1, hg s2 m2]
        simp only [Option.getD_some, Option.getD_none]
        try congr 1
        try ring
      · exfalso
        rcases List.mem_append.mp hmem with hx | hx
        · rcases List.mem_append.mp hx with hy | hy
          · exact m1 hy
          · exact m2 hy
        · exact m3 hx

lemma rrfAcc_data_val (k : ℚ) {s1 : List RItem} (s2 s3 : List RItem)
    (h1 : (idsOf s1).Nodup) (pid : String) :
    dictGet (rrfAcc k s1 s2 s3).2 pid = (s1 ++ s2 ++ s3).find? (fun r => r.id == pid) := by
  unfold rrfAcc
  rw [rrf_passOther_data, rrf_passOther_data, rrf_pass1_data h1,
    List.find?_append, List.find?_append]
  cases f1 : s1.find? (fun r => r.id == pid) <;>
    cases f2 : s2.find? (fun r => r.id == pid) <;>
    cases f3 : s3.find? (fun r => r.id == pid) <;>
    simp [dictGet]

lemma codeStep_eq (m : MKey) (w : ℚ) (acc : Dict Combined) (r : Row) :
    codeStep m w acc r = dictSet acc r.doc_id (codeUpd m w r (dictGet acc r.doc_id)) := rfl

lemma find?_docid_isSome_iff (s : List Row) (pid : String) :
    (s.find? (fun r => r.doc_id == pid)).isSome ↔ pid ∈ docIdsOf s := by
  rw [List.find?_isSome]
  simp [docIdsOf]

lemma rawRowScore_of_find?_eq_some {s : List Row} {pid : String} {r : Row}
    (h : s.find? (fun r => r.doc_id == pid) = some r) : rawRowScore s pid = r.score := by
  simp [rawRowScore, h]

lemma rawRowScore_of_not_mem {s : List Row} {pid : String}
    (h : pid ∉ docIdsOf s) : rawRowScore s pid = 0 := by
  cases hf : s.find? (fun r => r.doc_id == pid) with
  | some r =>
      exfalso
      exact h ((find?_docid_isSome_iff s pid).mp (by rw [hf]; rfl))
  | none => simp [rawRowScore, hf]

lemma code_pass_val (m : MKey) (w : ℚ) {rs : List Row} (hs : (docIdsOf rs).Nodup)
    (acc : Dict Combined) (pid : String) :
    dictGet (rs.foldl (codeStep m w) acc) pid =
      match rs.find? (fun r => r.doc_id == pid) with
      | some r => some (codeUpd m w r (dictGet acc pid))
      | none => dictGet acc pid := by
  have e := foldl_dict_upd (f := codeStep m w) (p := fun d => d)
    (g := Row.doc_id) (u := codeUpd m w) (fun acc r => rfl) rs hs acc pid
  rw [e]
  cases hf : rs.find? (fun r => r.doc_id == pid) <;> simp only [hf]

lemma code_foldl_keys (m : MKey) (w : ℚ) (rs : List Row) (acc : Dict Combined) :
    dkeys (rs.foldl (codeStep m w) acc) = (rs.map Row.doc_id).foldl seenInsert (dkeys acc) := by
  simpa using foldl_dict_keys (f := codeStep m w) (p := fun d => d)
    (g := Row.doc_id) (fun acc r => ⟨_, rfl⟩) rs acc

lemma codeAcc_keys (ws wt wf : ℚ) (S T F : List Row) :
    dkeys (codeAcc ws wt wf S T F) = firstSeen (docIdsOf S ++ docIdsOf T ++ docIdsOf F) := by
  unfold codeAcc firstSeen
  rw [code_foldl_keys, code_foldl_keys, code_foldl_keys,
    List.foldl_append, List.foldl_append]
  rfl

lemma combined_score_codeUpd (m : MKey) (w : ℚ) (r : Row) (o : Option Combined) :
    (codeUpd m w r o).combined_score = combOf o + capScore m r.score * w := by
  cases o <;> cases m <;> simp [codeUpd, combOf, setMethodScore, initCombined]

lemma code_pass_comb (m : MKey) (w : ℚ) {rs : List Row} (hs : (docIdsOf rs).Nodup)
    (acc : Dict Combined) (pid : String) :
    combOf (dictGet (rs.foldl (codeStep m w) acc) pid) =
      combOf (dictGet acc pid) + capScore m (rawRowScore rs pid) * w := by
  rw [code_pass_val m w hs acc pid]
  cases hf : rs.find? (fun r => r.doc_id == pid) with
  | some r =>
      rw [rawRowScore_of_find?_eq_some hf]
      simp [combOf, combined_score_codeUpd]
  | none =>
      have hm : pid ∉ docIdsOf rs := by
        intro hmem
        have hx := (find?_docid_isSome_iff rs pid).mpr hmem
        rw [hf] at hx
        simp at hx
      rw [rawRowScore_of_not_mem hm]
      have hz : capScore m 0 = 0 := by cases m <;> simp [capScore]
      rw [hz]
      ring

lemma codeAcc_comb (ws wt wf : ℚ) {S T F : List Row}
    (hS : (docIdsOf S).Nodup) (hT : (docIdsOf T).Nodup) (hF : (docIdsOf F).Nodup)
    (pid : String) :
    combOf (dictGet (codeAcc ws wt wf S T F) pid) =
      rawRowScore S pid * ws + rawRowScore T pid * wt +
        capScore .fulltext (rawRowScore F pid) * wf := by
  unfold codeAcc
  rw [code_pass_comb .fulltext wf hF, code_pass_comb .trigram wt hT,
    code_pass_comb .semantic ws hS]
  have hb : combOf (dictGet ([] : Dict Combined) pid) = 0 := rfl
  rw [hb]
  have hsem : capScore .semantic (rawRowScore S pid) = rawRowScore S pid := by
    simp [capScore]
  have htri : capScore .trigram (rawRowScore T pid) = rawRowScore T pid := by
    simp [capScore]
  rw [hsem, htri]
  ring

lemma payOf_codeUpd_some (m : MKey) (w : ℚ) (r : Row) (c : Combined) :
    payOf (codeUpd m w r (some c)) = payOf c := by
  cases m <;> simp [codeUpd, payOf, setMethodScore]

lemma payOf_codeUpd_none (m : MKey) (w : ℚ) (r : Row) :
    payOf (codeUpd m w r none) = payRow r := by
  cases m <;> simp [codeUpd, payOf, payRow, setMethodScore, initCombined]

lemma codeAcc_pay (ws wt wf : ℚ) {S T F : List Row}
    (hS : (docIdsOf S).Nodup) (hT : (docIdsOf T).Nodup) (hF : (docIdsOf F).Nodup)
    (pid : String) :
    (dictGet (codeAcc ws wt wf S T F) pid).map payOf =
      ((S ++ T ++ F).find? (fun r => r.doc_id == pid)).map payRow := by
  unfold codeAcc
  rw [code_pass_val .fulltext wf hF, code_pass_val .trigram wt hT,
    code_pass_val .semantic ws hS, List.find?_append, List.find?_append]
  cases f1 : S.find? (fun r => r.doc_id == pid) <;>
    cases f2 : T.find? (fun r => r.doc_id == pid) <;>
    cases f3 : F.find? (fun r => r.doc_id == pid) <;>
    simp [dictGet, payOf_codeUpd_some, payOf_codeUpd_none]

/-! ### Output-level lemmas -/

lemma take_sorted_length {α : Type} (key : String × α → ℚ) (d : Dict α) (L : ℕ) :
    ((pySortedDesc key d).take L).length = min L (dkeys d).length := by
  rw [List.length_take, (pySortedDesc_perm key d).length_eq]
  simp [dkeys]

lemma take_sorted_fst_nodup {α : Type} (key : String × α → ℚ) (d : Dict α)
    (hn : (dkeys d).Nodup) (L : ℕ) :
    (((pySortedDesc key d).take L).map Prod.fst).Nodup := by
  have hperm : List.Perm ((pySortedDesc key d).map Prod.fst) (dkeys d) :=
    (pySortedDesc_perm key d).map Prod.fst
  have h2 : ((pySortedDesc key d).map Prod.fst).Nodup := hperm.symm.nodup hn
  rw [List.map_take]
  exact List.Nodup.sublist (List.take_sublist _ _) h2

lemma firstSeen_length_eq_dedup (l : List String) :
    (firstSeen l).length = l.dedup.length := by
  have hperm : List.Perm (firstSeen l) l.dedup := by
    rw [List.perm_ext_iff_of_nodup (firstSeen_nodup l) (List.nodup_dedup l)]
    intro a
    rw [mem_firstSeen, List.mem_dedup]
  exact hperm.length_eq

lemma lab2_builder_id (data : Dict RItem) (M : String) (p : String × ℚ)
    (hkmem : p.1 ∈ dkeys data)
    (hid : ∀ pid v, dictGet data pid = some v → v.id = pid) :
    ({ (dictGet data p.1).getD default with score := p.2, method := M } : RItem).id = p.1 := by
  obtain ⟨v, hv⟩ := Option.isSome_iff_exists.mp ((dictGet_isSome_iff _ _).mpr hkmem)
  simp [hv, hid _ _ hv]

lemma lab2_output_ids (sc : Dict ℚ) (data : Dict RItem) (M : String) (L : ℕ)
    (hkeys : dkeys sc = dkeys data)
    (hid : ∀ pid v, dictGet data pid = some v → v.id = pid) :
    (((pySortedDesc Prod.snd sc).take L).map
      (fun p => { (dictGet data p.1).getD default with score := p.2, method := M })).map RItem.id
      = ((pySortedDesc Prod.snd sc).take L).map Prod.fst := by
  rw [List.map_map]
  apply List.map_congr_left
  intro p hp
  have hp3 : p ∈ sc := (pySortedDesc_perm _ _).mem_iff.mp (List.mem_of_mem_take hp)
  have hkmem : p.1 ∈ dkeys data := by
    rw [← hkeys]
    exact List.mem_map_of_mem Prod.fst hp3
  exact lab2_builder_id data M p hkmem hid

lemma pySorted_pairwise_pos {α : Type} (key : String × α → ℚ) (d : Dict α)
    (hn : (dkeys d).Nodup) :
    (pySortedDesc key d).Pairwise (fun p q =>
      key q < key p ∨ (key p = key q ∧ posIn p.1 (dkeys d) < posIn q.1 (dkeys d))) := by
  have h1 := sortEnum_pairwise_lt key d
  have h2 : (sortEnum key d).Pairwise (fun a b =>
      key b.2 < key a.2 ∨
        (key a.2 = key b.2 ∧ posIn a.2.1 (dkeys d) < posIn b.2.1 (dkeys d))) := by
    refine List.Pairwise.imp_of_mem ?_ h1
    intro a b ha hb hab
    obtain ⟨ia, hma⟩ := sortEnum_idx_eq_posIn hn ha
    obtain ⟨ib, hmb⟩ := sortEnum_idx_eq_posIn hn hb
    rcases hab with h | ⟨he, hlt⟩
    · exact Or.inl h
    · exact Or.inr ⟨he, by rw [← ia, ← ib]; exact hlt⟩
  exact List.pairwise_map.mpr h2

/-! ### Output membership lemmas for the lab2 functions -/

lemma rrf_output_mem {k : ℚ} {s1 s2 s3 : List RItem} {L : ℕ} {item : RItem}
    (hitem : item ∈ rrf_search k s1 s2 s3 L) :
    ∃ p : String × ℚ, p ∈ (rrfAcc k s1 s2 s3).1 ∧ item.id = p.1 ∧ item.score = p.2 ∧
      item = { (dictGet (rrfAcc k s1 s2 s3).2 p.1).getD default with
          score := p.2, method := rrfMethodLabel } := by
  rw [rrf_search_eq] at hitem
  obtain ⟨p, hp, hb⟩ := List.mem_map.mp hitem
  have hp3 : p ∈ (rrfAcc k s1 s2 s3).1 :=
    (pySortedDesc_perm _ _).mem_iff.mp (List.mem_of_mem_take hp)
  have hgood := rrfAcc_good k s1 s2 s3
  have hkmem : p.1 ∈ dkeys (rrfAcc k s1 s2 s3).2 := by
    rw [← hgood.1]
    exact List.mem_map_of_mem Prod.fst hp3
  refine ⟨p, hp3, ?_, ?_, hb.symm⟩
  · rw [← hb]
    exact lab2_builder_id _ _ p hkmem hgood.2
  · rw [← hb]

lemma hybrid_output_mem {sw kw : ℚ} {S K : List RItem} {L : ℕ} {out : List RItem}
    (hne : sw + kw ≠ 0) (hout : hybrid_search sw kw S K L = .ok out) {item : RItem}
    (hitem : item ∈ out) :
    ∃ p : String × ℚ, p ∈ (hybridAcc (sw / (sw + kw)) (kw / (sw + kw)) S K).1 ∧
      item.id = p.1 ∧ item.score = p.2 ∧
      item = { (dictGet (hybridAcc (sw / (sw + kw)) (kw / (sw + kw)) S K).2 p.1).getD default with
          score := p.2, method := hybridMethodLabel } := by
  rw [hybrid_search_eq sw kw S K L hne] at hout
  have hout2 : out =
      ((pySortedDesc Prod.snd (hybridAcc (sw / (sw + kw)) (kw / (sw + kw)) S K).1).take L).map
        (fun p =>
          { (dictGet (hybridAcc (sw / (sw + kw)) (kw / (sw + kw)) S K).2 p.1).getD default with
              score := p.2, method := hybridMethodLabel }) :=
    (Except.ok.inj hout).symm
  subst hout2
  obtain ⟨p, hp, hb⟩ := List.mem_map.mp hitem
  have hp3 : p ∈ (hybridAcc (sw / (sw + kw)) (kw / (sw + kw)) S K).1 :=
    (pySortedDesc_perm _ _).mem_iff.mp (List.mem_of_mem_take hp)
  have hgood := hybridAcc_good (sw / (sw + kw)) (kw / (sw + kw)) S K
  have hkmem : p.1 ∈ dkeys (hybridAcc (sw / (sw + kw)) (kw / (sw + kw)) S K).2 := by
    rw [← hgood.1]
    exact List.mem_map_of_mem Prod.fst hp3
  refine ⟨p, hp3, ?_, ?_, hb.symm⟩
  · rw [← hb]
    exact lab2_builder_id _ _ p hkmem hgood.2
  · rw [← hb]

/-! ### Claims -/

/-- C1: on the spec's worked example (method A = `[(x,0.9),(y,0.5)]` with
weight 0.7, method B = `[(y,0.8),(z,0.3)]` with weight 0.3, limit at least 3)
weighted fusion returns exactly `[x, y, z]` with combined scores 0.63, 0.59
and 0.09. -/
theorem claim1_worked_example (L : ℕ) (hL : 3 ≤ L) :
    ∃ out : List RItem,
      hybrid_search (7/10) (3/10) [xSem, ySem] [yKey, zKey] L = .ok out ∧
      out.map (fun r => (r.id, r.score)) =
        [("x", 63/100), ("y", 59/100), ("z", 9/100)] := by
  have hne : (7/10 : ℚ) + 3/10 ≠ 0 := by norm_num
  refine ⟨_, hybrid_search_eq (7/10) (3/10) [xSem, ySem] [yKey, zKey] L hne, ?_⟩
  have hacc1 : (hybridAcc ((7/10) / ((7/10) + (3/10))) ((3/10) / ((7/10) + (3/10)))
      [xSem, ySem] [yKey, zKey]).1 =
      [("x", 63/100), ("y", 59/100), ("z", 9/100)] := by
    norm_num +decide [hybridAcc, hybridStep1, hybridStep2, dictSet, dictGet, dictGetD,
      xSem, ySem, yKey, zKey]
  have hacc2 : (hybridAcc ((7/10) / ((7/10) + (3/10))) ((3/10) / ((7/10) + (3/10)))
      [xSem, ySem] [yKey, zKey]).2 =
      [("x", xSem), ("y", ySem), ("z", zKey)] := by
    norm_num +decide [hybridAcc, hybridStep1, hybridStep2, dictSet, dictGet, dictGetD,
      xSem, ySem, yKey, zKey]
  rw [hacc1, hacc2]
  have hsort : pySortedDesc Prod.snd
      ([("x", (63:ℚ)/100), ("y", 59/100), ("z", 9/100)] : Dict ℚ) =
      [("x", 63/100), ("y", 59/100), ("z", 9/100)] := by
    norm_num +decide [pySortedDesc, sortEnum, List.insertionSort, List.orderedInsert,
      pyKeyLe, List.enum_eq_enumFrom, List.enumFrom]
  rw [hsort, List.take_of_length_le (by simpa using hL)]
  norm_num +decide [dictGet, xSem, ySem, zKey]

/-- Witness for C1 at the concrete limit 3. -/
theorem claim1_witness :
    3 ≤ 3 ∧ ∃ out : List RItem,
      hybrid_search (7/10) (3/10) [xSem, ySem] [yKey, zKey] 3 = .ok out ∧
      out.map (fun r => (r.id, r.score)) =
        [("x", 63/100), ("y", 59/100), ("z", 9/100)] :=
  ⟨by decide, claim1_worked_example 3 (by decide)⟩

/-- C2: for nodup method result sets (and a positive RRF constant, the regime
in which rational division agrees with Python), every item of the RRF output
scores the sum over the sets containing its id of `1/(k + rank)`; moreover at
`k = 60` a set ranking the id first contributes exactly `1/61`, and a set not
containing an id contributes exactly `0`. -/
theorem claim2_rrf_formula (k : ℚ) (s1 s2 s3 : List RItem) (L : ℕ)
    (hk : 0 < k) (h1 : (idsOf s1).Nodup) (h2 : (idsOf s2).Nodup)
    (h3 : (idsOf s3).Nodup) :
    (∀ item ∈ rrf_search k s1 s2 s3 L,
      item.score =
        specContrib k s1 item.id + specContrib k s2 item.id + specContrib k s3 item.id)
    ∧ (∀ (s : List RItem) (pid : String), pid ∈ idsOf s → posIn pid (idsOf s) = 0 →
        specContrib 60 s pid = 1/61)
    ∧ (∀ (s : List RItem) (pid : String), pid ∉ idsOf s → specContrib k s pid = 0) := by
  refine ⟨?_, ?_, ?_⟩
  · intro item hitem
    obtain ⟨p, hp, hid, hscore, _⟩ := rrf_output_mem hitem
    have hnk : (dkeys (rrfAcc k s1 s2 s3).1).Nodup := by
      rw [rrfAcc_keys]
      exact firstSeen_nodup _
    have hv := dictGet_eq_some_of_mem hnk hp
    have hmem : p.1 ∈ idsOf s1 ++ idsOf s2 ++ idsOf s3 := by
      have : p.1 ∈ dkeys (rrfAcc k s1 s2 s3).1 := List.mem_map_of_mem Prod.fst hp
      rw [rrfAcc_keys, mem_firstSeen] at this
      exact this
    have hval := rrfAcc_scores_val k h1 h2 h3 p.1 hmem
    rw [hval] at hv
    rw [hid, hscore]
    exact (Option.some.inj hv).symm
  · intro s pid hmem hpos
    simp [specContrib, hmem, hpos]
    norm_num
  · intro s pid hmem
    simp [specContrib, hmem]

lemma rrf_concrete_out : rrf_search 60 [xSem] [yKey] [] 10 = [rrfItemX, rrfItemY] := by
  have hacc1 : (rrfAcc 60 [xSem] [yKey] []).1 = [("x", 1/61), ("y", 1/61)] := by
    norm_num +decide [rrfAcc, rrfStepSem, rrfStepOther, dictSet, dictGet, dictGetD,
      xSem, yKey, List.enumFrom]
  have hacc2 : (rrfAcc 60 [xSem] [yKey] []).2 = [("x", xSem), ("y", yKey)] := by
    norm_num +decide [rrfAcc, rrfStepSem, rrfStepOther, dictSet, dictGet, dictGetD,
      xSem, yKey, List.enumFrom]
  rw [rrf_search_eq, hacc1, hacc2]
  have hsort : pySortedDesc Prod.snd ([("x", (1:ℚ)/61), ("y", (1:ℚ)/61)] : Dict ℚ) =
      [("x", 1/61), ("y", 1/61)] := by
    norm_num +decide [pySortedDesc, sortEnum, List.insertionSort, List.orderedInsert,
      pyKeyLe, List.enum_eq_enumFrom, List.enumFrom]
  rw [hsort]
  norm_num +decide [dictGet, xSem, yKey, rrfItemX, rrfItemY]

/-- Witness for C2 on a concrete RRF call with `k = 60`. -/
theorem claim2_witness :
    rrfItemX.score =
      specContrib 60 [xSem] rrfItemX.id + specContrib 60 [yKey] rrfItemX.id +
        specContrib 60 [] rrfItemX.id :=
  (claim2_rrf_formula 60 [xSem] [yKey] [] 10 (by decide) (by decide) (by decide)
    (by decide)).1 rrfItemX
    (by rw [rrf_concrete_out]; exact List.mem_cons_self _ _)

/-- C3 counterexample: an RRF call with the non-positive constant `k = 0` is
not rejected; it proceeds and returns a fully computed result (`x` scored
`1/(0+1) = 1`), refuting the claim that such calls fail at call time. -/
theorem claim3_counterexample :
    rrf_search 0 [xSem] [] [] 10 =
      [{ id := "x", score := 1, payload := "px", method := rrfMethodLabel }] := by
  have hacc1 : (rrfAcc 0 [xSem] [] []).1 = [("x", 1)] := by
    norm_num +decide [rrfAcc, rrfStepSem, rrfStepOther, dictSet, dictGet, dictGetD,
      xSem, List.enumFrom]
  have hacc2 : (rrfAcc 0 [xSem] [] []).2 = [("x", xSem)] := by
    norm_num +decide [rrfAcc, rrfStepSem, rrfStepOther, dictSet, dictGet, dictGetD,
      xSem, List.enumFrom]
  rw [rrf_search_eq, hacc1, hacc2]
  have hsort : pySortedDesc Prod.snd ([("x", (1:ℚ))] : Dict ℚ) = [("x", 1)] := by
    norm_num +decide [pySortedDesc, sortEnum, List.insertionSort, List.orderedInsert,
      pyKeyLe, List.enum_eq_enumFrom, List.enumFrom]
  rw [hsort]
  norm_num +decide [dictGet, xSem]

/-- C3 amended: weighted fusion with all-zero (zero-sum) weights fails at
call time, before any score computation, with the division-by-zero error from
weight normalisation; RRF performs no validation of `k` at all. -/
theorem claim3_amended (sw kw : ℚ) (S K : List RItem) (L : ℕ) (h : sw + kw = 0) :
    hybrid_search sw kw S K L = .error zeroDivisionError := by
  unfold hybrid_search
  rw [if_pos h]

/-- Witness for the amended C3 at concrete zero weights. -/
theorem claim3_witness :
    (0 : ℚ) + 0 = 0 ∧ hybrid_search 0 0 [xSem] [] 5 = .error zeroDivisionError :=
  ⟨by norm_num, claim3_amended 0 0 [xSem] [] 5 (by norm_num)⟩

/-- C6: whenever the external rerank invocation raises (modelled as the
invocation returning an error), `rerank_results` returns the first `top_k`
input candidates unchanged and in order; the exception is absorbed, never
propagated (the function is total and returns a plain list). -/
theorem claim6_rerank_failsoft (e : String) (query : String) (results : List RItem)
    (top_k : ℕ) :
    rerank_results (fun _ _ _ => .error e) query results top_k = results.take top_k := by
  unfold rerank_results
  by_cases h : results.isEmpty
  · rw [if_pos h]
    have he : results = [] := List.isEmpty_iff.mp h
    rw [he]
    simp
  · rw [if_neg h]

/-- C10: a rerank call on an empty candidate list returns `[]` immediately,
for every possible behaviour of the external service — so the external
service is never consulted. -/
theorem claim10_rerank_empty
    (invoke : String → List String → ℕ → Except String (List (ℕ × ℚ)))
    (query : String) (top_k : ℕ) :
    rerank_results invoke query [] top_k = [] := rfl

/-- C4: for any inputs and limit, weighted fusion (both the lab2 and the
code-app variants) and RRF fusion return exactly
`min limit (number of distinct ids across all input sets)` items, with no id
appearing twice. -/
theorem claim4_cardinality_uniqueness :
    (∀ (sw kw : ℚ) (S K : List RItem) (L : ℕ) (out : List RItem), sw + kw ≠ 0 →
      hybrid_search sw kw S K L = .ok out →
        out.length = min L ((idsOf S ++ idsOf K).dedup.length) ∧
        (out.map RItem.id).Nodup)
    ∧ (∀ (k : ℚ) (s1 s2 s3 : List RItem) (L : ℕ), 0 < k →
        (rrf_search k s1 s2 s3 L).length =
          min L ((idsOf s1 ++ idsOf s2 ++ idsOf s3).dedup.length) ∧
        ((rrf_search k s1 s2 s3 L).map RItem.id).Nodup)
    ∧ (∀ (ws wt wf : ℚ) (S T F : List Row) (L : ℕ) (out : List (String × Combined)),
        ws + wt + wf ≠ 0 → code_hybrid_search ws wt wf S T F L = .ok out →
          out.length = min L ((docIdsOf S ++ docIdsOf T ++ docIdsOf F).dedup.length) ∧
          (out.map Prod.fst).Nodup) := by
  refine ⟨?_, ?_, ?_⟩
  · intro sw kw S K L out hne hout
    rw [hybrid_search_eq sw kw S K L hne] at hout
    have hout2 := (Except.ok.inj hout).symm
    subst hout2
    have hgood := hybridAcc_good (sw / (sw + kw)) (kw / (sw + kw)) S K
    constructor
    · rw [List.length_map, take_sorted_length, hybridAcc_keys, firstSeen_length_eq_dedup]
    · rw [lab2_output_ids _ _ _ _ hgood.1 hgood.2]
      exact take_sorted_fst_nodup _ _ (by rw [hybridAcc_keys]; exact firstSeen_nodup _) L
  · intro k s1 s2 s3 L _
    rw [rrf_search_eq]
    have hgood := rrfAcc_good k s1 s2 s3
    constructor
    · rw [List.length_map, take_sorted_length, rrfAcc_keys, firstSeen_length_eq_dedup]
    · rw [lab2_output_ids _ _ _ _ hgood.1 hgood.2]
      exact take_sorted_fst_nodup _ _ (by rw [rrfAcc_keys]; exact firstSeen_nodup _) L
  · intro ws wt wf S T F L out hne hout
    rw [code_hybrid_search_eq ws wt wf S T F L hne] at hout
    have hout2 := (Except.ok.inj hout).symm
    subst hout2
    constructor
    · rw [take_sorted_length, codeAcc_keys, firstSeen_length_eq_dedup]
    · exact take_sorted_fst_nodup _ _ (by rw [codeAcc_keys]; exact firstSeen_nodup _) L

lemma hybrid_empty_out : hybrid_search 1 0 [] [] 0 = .ok [] := by
  have hne : (1 : ℚ) + 0 ≠ 0 := by norm_num
  rw [hybrid_search_eq 1 0 [] [] 0 hne]
  rfl

lemma code_empty_out : code_hybrid_search 1 0 0 [] [] [] 0 = .ok [] := by
  have hne : (1 : ℚ) + 0 + 0 ≠ 0 := by norm_num
  rw [code_hybrid_search_eq 1 0 0 [] [] [] 0 hne]
  rfl

/-- Witness for C4 at concrete inputs for all three fusion functions. -/
theorem claim4_witness :
    ((rrf_search 60 [xSem] [yKey] [] 10).length =
        min 10 ((idsOf [xSem] ++ idsOf [yKey] ++ idsOf ([] : List RItem)).dedup.length) ∧
      ((rrf_search 60 [xSem] [yKey] [] 10).map RItem.id).Nodup) ∧
    (([] : List RItem).length =
        min 0 ((idsOf ([] : List RItem) ++ idsOf ([] : List RItem)).dedup.length) ∧
      (([] : List RItem).map RItem.id).Nodup) ∧
    (([] : List (String × Combined)).length =
        min 0 ((docIdsOf [] ++ docIdsOf [] ++ docIdsOf []).dedup.length) ∧
      (([] : List (String × Combined)).map Prod.fst).Nodup) :=
  ⟨claim4_cardinality_uniqueness.2.1 60 [xSem] [yKey] [] 10 (by decide),
   claim4_cardinality_uniqueness.1 1 0 [] [] 0 [] (by norm_num) hybrid_empty_out,
   claim4_cardinality_uniqueness.2.2 1 0 0 [] [] [] 0 [] (by norm_num) code_empty_out⟩

/-- C5: the fused outputs are sorted descending by combined score, and items
with equal scores appear in the order in which their ids were first
encountered while iterating the input sets (stable, first-seen order). -/
theorem claim5_sorted_stable :
    (∀ (sw kw : ℚ) (S K : List RItem) (L : ℕ) (out : List RItem), sw + kw ≠ 0 →
      hybrid_search sw kw S K L = .ok out →
        out.Pairwise (fun a b => b.score < a.score ∨ (a.score = b.score ∧
          posIn a.id (firstSeen (idsOf S ++ idsOf K)) <
            posIn b.id (firstSeen (idsOf S ++ idsOf K)))))
    ∧ (∀ (k : ℚ) (s1 s2 s3 : List RItem) (L : ℕ), 0 < k →
        (rrf_search k s1 s2 s3 L).Pairwise (fun a b =>
          b.score < a.score ∨ (a.score = b.score ∧
            posIn a.id (firstSeen (idsOf s1 ++ idsOf s2 ++ idsOf s3)) <
              posIn b.id (firstSeen (idsOf s1 ++ idsOf s2 ++ idsOf s3)))))
    ∧ (∀ (ws wt wf : ℚ) (S T F : List Row) (L : ℕ)
        (out : List (String × Combined)), ws + wt + wf ≠ 0 →
        code_hybrid_search ws wt wf S T F L = .ok out →
          out.Pairwise (fun p q =>
            q.2.combined_score < p.2.combined_score ∨
            (p.2.combined_score = q.2.combined_score ∧
              posIn p.1 (firstSeen (docIdsOf S ++ docIdsOf T ++ docIdsOf F)) <
                posIn q.1 (firstSeen (docIdsOf S ++ docIdsOf T ++ docIdsOf F))))) := by
  refine ⟨?_, ?_, ?_⟩
  · intro sw kw S K L out hne hout
    rw [hybrid_search_eq sw kw S K L hne] at hout
    have hout2 := (Except.ok.inj hout).symm
    subst hout2
    have hgood := hybridAcc_good (sw / (sw + kw)) (kw / (sw + kw)) S K
    have hn : (dkeys (hybridAcc (sw / (sw + kw)) (kw / (sw + kw)) S K).1).Nodup := by
      rw [hybridAcc_keys]
      exact firstSeen_nodup _
    have hpw := pySorted_pairwise_pos Prod.snd (hybridAcc (sw / (sw + kw)) (kw / (sw + kw)) S K).1 hn
    rw [hybridAcc_keys] at hpw
    have hpw2 := List.Pairwise.sublist (List.take_sublist L _) hpw
    rw [List.pairwise_map]
    refine List.Pairwise.imp_of_mem ?_ hpw2
    intro p q hp hq hpq
    have hpmem : p ∈ (hybridAcc (sw / (sw + kw)) (kw / (sw + kw)) S K).1 :=
      (pySortedDesc_perm _ _).mem_iff.mp (List.mem_of_mem_take hp)
    have hqmem : q ∈ (hybridAcc (sw / (sw + kw)) (kw / (sw + kw)) S K).1 :=
      (pySortedDesc_perm _ _).mem_iff.mp (List.mem_of_mem_take hq)
    have hidp : ({ (dictGet (hybridAcc (sw / (sw + kw)) (kw / (sw + kw)) S K).2 p.1).getD default with
        score := p.2, method := hybridMethodLabel } : RItem).id = p.1 :=
      lab2_builder_id _ _ p (by rw [← hgood.1]; exact List.mem_map_of_mem Prod.fst hpmem) hgood.2
    have hidq : ({ (dictGet (hybridAcc (sw / (sw + kw)) (kw / (sw + kw)) S K).2 q.1).getD default with
        score := q.2, method := hybridMethodLabel } : RItem).id = q.1 :=
      lab2_builder_id _ _ q (by rw [← hgood.1]; exact List.mem_map_of_mem Prod.fst hqmem) hgood.2
    rcases hpq with h | ⟨he, hlt⟩
    · exact Or.inl h
    · refine Or.inr ⟨he, ?_⟩
      rw [hidp, hidq]
      exact hlt
  · intro k s1 s2 s3 L _
    rw [rrf_search_eq]
    have hgood := rrfAcc_good k s1 s2 s3
    have hn : (dkeys (rrfAcc k s1 s2 s3).1).Nodup := by
      rw [rrfAcc_keys]
      exact firstSeen_nodup _
    have hpw := pySorted_pairwise_pos Prod.snd (rrfAcc k s1 s2 s3).1 hn
    rw [rrfAcc_keys] at hpw
    have hpw2 := List.Pairwise.sublist (List.take_sublist L _) hpw
    rw [List.pairwise_map]
    refine List.Pairwise.imp_of_mem ?_ hpw2
    intro p q hp hq hpq
    have hpmem : p ∈ (rrfAcc k s1 s2 s3).1 :=
      (pySortedDesc_perm _ _).mem_iff.mp (List.mem_of_mem_take hp)
    have hqmem : q ∈ (rrfAcc k s1 s2 s3).1 :=
      (pySortedDesc_perm _ _).mem_iff.mp (List.mem_of_mem_take hq)
    have hidp : ({ (dictGet (rrfAcc k s1 s2 s3).2 p.1).getD default with
        score := p.2, method := rrfMethodLabel } : RItem).id = p.1 :=
      lab2_builder_id _ _ p (by rw [← hgood.1]; exact List.mem_map_of_mem Prod.fst hpmem) hgood.2
    have hidq : ({ (dictGet (rrfAcc k s1 s2 s3).2 q.1).getD default with
        score := q.2, method := rrfMethodLabel } : RItem).id = q.1 :=
      lab2_builder_id _ _ q (by rw [← hgood.1]; exact List.mem_map_of_mem Prod.fst hqmem) hgood.2
    rcases hpq with h | ⟨he, hlt⟩
    · exact Or.inl h
    · refine Or.inr ⟨he, ?_⟩
      rw [hidp, hidq]
      exact hlt
  · intro ws wt wf S T F L out hne hout
    rw [code_hybrid_search_eq ws wt wf S T F L hne] at hout
    have hout2 := (Except.ok.inj hout).symm
    subst hout2
    have hn : (dkeys (codeAcc (ws / (ws + wt + wf)) (wt / (ws + wt + wf))
        (wf / (ws + wt + wf)) S T F)).Nodup := by
      rw [codeAcc_keys]
      exact firstSeen_nodup _
    have hpw := pySorted_pairwise_pos (fun p => p.2.combined_score)
      (codeAcc (ws / (ws + wt + wf)) (wt / (ws + wt + wf)) (wf / (ws + wt + wf)) S T F) hn
    rw [codeAcc_keys] at hpw
    exact List.Pairwise.sublist (List.take_sublist L _) hpw

/-- Witness for C5 at concrete inputs for all three fusion functions. -/
theorem claim5_witness :
    ((rrf_search 60 [xSem] [yKey] [] 10).Pairwise (fun a b =>
        b.score < a.score ∨ (a.score = b.score ∧
          posIn a.id (firstSeen (idsOf [xSem] ++ idsOf [yKey] ++ idsOf ([] : List RItem))) <
            posIn b.id (firstSeen (idsOf [xSem] ++ idsOf [yKey] ++ idsOf ([] : List RItem))))))
    ∧ (([] : List RItem).Pairwise (fun a b => b.score < a.score ∨ (a.score = b.score ∧
        posIn a.id (firstSeen (idsOf ([] : List RItem) ++ idsOf ([] : List RItem))) <
          posIn b.id (firstSeen (idsOf ([] : List RItem) ++ idsOf ([] : List RItem))))))
    ∧ (([] : List (String × Combined)).Pairwise (fun p q =>
        q.2.combined_score < p.2.combined_score ∨
        (p.2.combined_score = q.2.combined_score ∧
          posIn p.1 (firstSeen (docIdsOf [] ++ docIdsOf [] ++ docIdsOf [])) <
            posIn q.1 (firstSeen (docIdsOf [] ++ docIdsOf [] ++ docIdsOf []))))) :=
  ⟨claim5_sorted_stable.2.1 60 [xSem] [yKey] [] 10 (by decide),
   claim5_sorted_stable.1 1 0 [] [] 0 [] (by norm_num) hybrid_empty_out,
   claim5_sorted_stable.2.2 1 0 0 [] [] [] 0 [] (by norm_num) code_empty_out⟩

/-- C7: each fused item carries the payload of the entry contributed by the
first input set (in iteration order) that produced its id — the whole record
is that first-seen entry with only the combined score and the method label
replaced; later occurrences of the same id never overwrite the payload. -/
theorem claim7_payload_first_seen :
    (∀ (sw kw : ℚ) (S K : List RItem) (L : ℕ) (out : List RItem),
      sw + kw ≠ 0 → (idsOf S).Nodup → hybrid_search sw kw S K L = .ok out →
      ∀ item ∈ out, ∃ e : RItem, (S ++ K).find? (fun r => r.id == item.id) = some e ∧
        item = { e with score := item.score, method := hybridMethodLabel })
    ∧ (∀ (k : ℚ) (s1 s2 s3 : List RItem) (L : ℕ), 0 < k → (idsOf s1).Nodup →
        ∀ item ∈ rrf_search k s1 s2 s3 L,
          ∃ e : RItem, (s1 ++ s2 ++ s3).find? (fun r => r.id == item.id) = some e ∧
            item = { e with score := item.score, method := rrfMethodLabel })
    ∧ (∀ (ws wt wf : ℚ) (S T F : List Row) (L : ℕ) (out : List (String × Combined)),
        ws + wt + wf ≠ 0 → (docIdsOf S).Nodup → (docIdsOf T).Nodup →
        (docIdsOf F).Nodup → code_hybrid_search ws wt wf S T F L = .ok out →
        ∀ pc ∈ out, ∃ e : Row, (S ++ T ++ F).find? (fun r => r.doc_id == pc.1) = some e ∧
          payOf pc.2 = payRow e) := by
  refine ⟨?_, ?_, ?_⟩
  · intro sw kw S K L out hne hS hout item hitem
    obtain ⟨p, hp, hid, hscore, hbuild⟩ := hybrid_output_mem hne hout hitem
    have hgood := hybridAcc_good (sw / (sw + kw)) (kw / (sw + kw)) S K
    have hdata := hybridAcc_data_val (sw / (sw + kw)) (kw / (sw + kw)) hS p.1 (K := K)
    have hkmem : p.1 ∈ dkeys (hybridAcc (sw / (sw + kw)) (kw / (sw + kw)) S K).2 := by
      rw [← hgood.1]
      exact List.mem_map_of_mem Prod.fst hp
    obtain ⟨v, hv⟩ := Option.isSome_iff_exists.mp ((dictGet_isSome_iff _ _).mpr hkmem)
    refine ⟨v, ?_, ?_⟩
    · rw [hid, ← hdata]
      exact hv
    · rw [hscore, hbuild, hv]
      simp
  · intro k s1 s2 s3 L _ h1 item hitem
    obtain ⟨p, hp, hid, hscore, hbuild⟩ := rrf_output_mem hitem
    have hgood := rrfAcc_good k s1 s2 s3
    have hdata := rrfAcc_data_val k s2 s3 h1 p.1
    have hkmem : p.1 ∈ dkeys (rrfAcc k s1 s2 s3).2 := by
      rw [← hgood.1]
      exact List.mem_map_of_mem Prod.fst hp
    obtain ⟨v, hv⟩ := Option.isSome_iff_exists.mp ((dictGet_isSome_iff _ _).mpr hkmem)
    refine ⟨v, ?_, ?_⟩
    · rw [hid, ← hdata]
      exact hv
    · rw [hscore, hbuild, hv]
      simp
  · intro ws wt wf S T F L out hne hS hT hF hout pc hpc
    rw [code_hybrid_search_eq ws wt wf S T F L hne] at hout
    have hout2 := (Except.ok.inj hout).symm
    subst hout2
    have hpmem : pc ∈ codeAcc (ws / (ws + wt + wf)) (wt / (ws + wt + wf))
        (wf / (ws + wt + wf)) S T F :=
      (pySortedDesc_perm _ _).mem_iff.mp (List.mem_of_mem_take hpc)
    have hn : (dkeys (codeAcc (ws / (ws + wt + wf)) (wt / (ws + wt + wf))
        (wf / (ws + wt + wf)) S T F)).Nodup := by
      rw [codeAcc_keys]
      exact firstSeen_nodup _
    have hv := dictGet_eq_some_of_mem hn hpmem
    have hpay := codeAcc_pay (ws / (ws + wt + wf)) (wt / (ws + wt + wf))
      (wf / (ws + wt + wf)) hS hT hF pc.1
    rw [hv] at hpay
    cases hf : (S ++ T ++ F).find? (fun r => r.doc_id == pc.1) with
    | some e =>
        rw [hf] at hpay
        exact ⟨e, rfl, Option.some.inj hpay⟩
    | none =>
        rw [hf] at hpay
        simp at hpay

/-- Witness for C7 on a concrete RRF call. -/
theorem claim7_witness :
    ∃ e : RItem,
      ([xSem] ++ [yKey] ++ ([] : List RItem)).find? (fun r => r.id == rrfItemX.id) = some e ∧
      rrfItemX = { e with score := rrfItemX.score, method := rrfMethodLabel } :=
  claim7_payload_first_seen.2.1 60 [xSem] [yKey] [] 10 (by decide) (by decide) rrfItemX
    (by rw [rrf_concrete_out]; exact List.mem_cons_self _ _)

/-- C8: in the code-app three-method weighted fusion, every output document's
combined score adds the raw semantic and trigram scores as-is (no cap), while
the fulltext raw score is first capped at 1 (`min(score, 1.0) if score else 0`)
before being multiplied by its normalised weight. -/
theorem claim8_fulltext_cap (ws wt wf : ℚ) (S T F : List Row) (L : ℕ)
    (out : List (String × Combined)) (hne : ws + wt + wf ≠ 0)
    (hS : (docIdsOf S).Nodup) (hT : (docIdsOf T).Nodup) (hF : (docIdsOf F).Nodup)
    (hout : code_hybrid_search ws wt wf S T F L = .ok out) :
    ∀ pc ∈ out, pc.2.combined_score =
      rawRowScore S pc.1 * (ws / (ws + wt + wf)) +
      rawRowScore T pc.1 * (wt / (ws + wt + wf)) +
      (if rawRowScore F pc.1 = 0 then 0 else min (rawRowScore F pc.1) 1) *
        (wf / (ws + wt + wf)) := by
  intro pc hpc
  rw [code_hybrid_search_eq ws wt wf S T F L hne] at hout
  have hout2 := (Except.ok.inj hout).symm
  subst hout2
  have hpmem : pc ∈ codeAcc (ws / (ws + wt + wf)) (wt / (ws + wt + wf))
      (wf / (ws + wt + wf)) S T F :=
    (pySortedDesc_perm _ _).mem_iff.mp (List.mem_of_mem_take hpc)
  have hn : (dkeys (codeAcc (ws / (ws + wt + wf)) (wt / (ws + wt + wf))
      (wf / (ws + wt + wf)) S T F)).Nodup := by
    rw [codeAcc_keys]
    exact firstSeen_nodup _
  have hv := dictGet_eq_some_of_mem hn hpmem
  have hc := codeAcc_comb (ws / (ws + wt + wf)) (wt / (ws + wt + wf))
    (wf / (ws + wt + wf)) hS hT hF pc.1
  rw [hv] at hc
  simpa [combOf, capScore] using hc

lemma code_concrete_out :
    code_hybrid_search 1 1 1 [rowSemD1] [] [rowFtD1] 10 = .ok [("d1", codeRecD1)] := by
  have hne : (1 : ℚ) + 1 + 1 ≠ 0 := by norm_num
  rw [code_hybrid_search_eq 1 1 1 [rowSemD1] [] [rowFtD1] 10 hne]
  have hacc : codeAcc (1 / (1 + 1 + 1)) (1 / (1 + 1 + 1)) ((1 : ℚ) / (1 + 1 + 1))
      [rowSemD1] [] [rowFtD1] = [("d1", codeRecD1)] := by
    norm_num +decide [codeAcc, codeStep, codeUpd, capScore, setMethodScore, initCombined,
      dictSet, dictGet, dictGetD, rowSemD1, rowFtD1, codeRecD1, min_def]
  rw [hacc]
  have hsort : pySortedDesc (fun p => p.2.combined_score)
      ([("d1", codeRecD1)] : Dict Combined) = [("d1", codeRecD1)] := by
    norm_num +decide [pySortedDesc, sortEnum, List.insertionSort, List.orderedInsert,
      pyKeyLe, List.enum_eq_enumFrom, List.enumFrom]
  rw [hsort]
  rfl

/-- Witness for C8: a fulltext raw score of 2 is capped to 1 in the combined
score, while the semantic raw score 2 enters uncapped. -/
theorem claim8_witness :
    ("d1", codeRecD1).2.combined_score =
      rawRowScore [rowSemD1] ("d1", codeRecD1).1 * ((1 : ℚ) / (1 + 1 + 1)) +
      rawRowScore [] ("d1", codeRecD1).1 * ((1 : ℚ) / (1 + 1 + 1)) +
      (if rawRowScore [rowFtD1] ("d1", codeRecD1).1 = 0 then 0
       else min (rawRowScore [rowFtD1] ("d1", codeRecD1).1) 1) * ((1 : ℚ) / (1 + 1 + 1)) :=
  claim8_fulltext_cap 1 1 1 [rowSemD1] [] [rowFtD1] 10 [("d1", codeRecD1)]
    (by norm_num) (by decide) (by decide) (by decide) code_concrete_out
    ("d1", codeRecD1) (List.mem_cons_self _ _)

/-! ### Weight-monotonicity machinery (C9) -/

lemma posIn_inj {l : List String} {x y : String} (hx : x ∈ l) (hy : y ∈ l)
    (h : posIn x l = posIn y l) : x = y := by
  have h1 := getElem_posIn hx
  have h2 := getElem_posIn hy
  have hfin : (⟨posIn x l, posIn_lt_length hx⟩ : Fin l.length) =
      ⟨posIn y l, posIn_lt_length hy⟩ := Fin.ext h
  rw [← h1, ← h2, hfin]

lemma scoreW_diff_mono (rSa rSb rKa rKb w1 w1' w2 : ℚ)
    (hS : rSb ≤ rSa) (hK : rKa ≤ rKb)
    (h0 : 0 ≤ w1) (h1 : w1 ≤ w1') (h2 : 0 < w2) :
    (rSa * (w1 / (w1 + w2)) + rKa * (w2 / (w1 + w2))) -
      (rSb * (w1 / (w1 + w2)) + rKb * (w2 / (w1 + w2))) ≤
    (rSa * (w1' / (w1' + w2)) + rKa * (w2 / (w1' + w2))) -
      (rSb * (w1' / (w1' + w2)) + rKb * (w2 / (w1' + w2))) := by
  have hd : 0 < w1 + w2 := by linarith
  have hd2 : 0 < w1' + w2 := by linarith
  have e1 : (rSa * (w1 / (w1 + w2)) + rKa * (w2 / (w1 + w2))) -
      (rSb * (w1 / (w1 + w2)) + rKb * (w2 / (w1 + w2))) =
      ((rSa - rSb) * w1 + (rKa - rKb) * w2) / (w1 + w2) := by
    field_simp
    ring
  have e2 : (rSa * (w1' / (w1' + w2)) + rKa * (w2 / (w1' + w2))) -
      (rSb * (w1' / (w1' + w2)) + rKb * (w2 / (w1' + w2))) =
      ((rSa - rSb) * w1' + (rKa - rKb) * w2) / (w1' + w2) := by
    field_simp
    ring
  rw [e1, e2, div_le_div_iff hd hd2]
  nlinarith [mul_nonneg (mul_nonneg h2.le (sub_nonneg.mpr h1))
    (sub_nonneg.mpr (by linarith : rKa - rKb ≤ rSa - rSb))]

lemma posIn_rel_of_lt {l : List String} {R : String → String → Prop}
    (hpw : l.Pairwise R) {x y : String} (hx : x ∈ l) (hy : y ∈ l)
    (h : posIn x l < posIn y l) : R x y := by
  have h1 := getElem_posIn hx
  have h2 := getElem_posIn hy
  rw [List.get_eq_getElem] at h1 h2
  have h3 := List.pairwise_iff_getElem.mp hpw (posIn x l) (posIn y l)
    (posIn_lt_length hx) (posIn_lt_length hy) h
  rwa [h1, h2] at h3

lemma posIn_lt_of_rel {l : List String} {R : String → String → Prop}
    (hpw : l.Pairwise R) {x y : String} (hx : x ∈ l) (hy : y ∈ l) (hxy : x ≠ y)
    (hR : R x y) (hasym : ∀ u v, R u v → R v u → False) :
    posIn x l < posIn y l := by
  rcases lt_trichotomy (posIn x l) (posIn y l) with h | h | h
  · exact h
  · exact absurd (posIn_inj hx hy h) hxy
  · exact absurd hR (fun hr => hasym y x (posIn_rel_of_lt hpw hy hx h) hr)

lemma hybrid_ids_pairwise {w1 w2 : ℚ} {S K : List RItem} {L : ℕ} {out : List RItem}
    (hne : w1 + w2 ≠ 0) (hS : (idsOf S).Nodup) (hK : (idsOf K).Nodup)
    (hout : hybrid_search w1 w2 S K L = .ok out) :
    (out.map RItem.id).Pairwise (fun x y =>
      scoreW w1 w2 S K y < scoreW w1 w2 S K x ∨
      (scoreW w1 w2 S K x = scoreW w1 w2 S K y ∧
        posIn x (firstSeen (idsOf S ++ idsOf K)) <
          posIn y (firstSeen (idsOf S ++ idsOf K)))) := by
  rw [hybrid_search_eq w1 w2 S K L hne] at hout
  have hout2 := (Except.ok.inj hout).symm
  subst hout2
  have hgood := hybridAcc_good (w1 / (w1 + w2)) (w2 / (w1 + w2)) S K
  have hn : (dkeys (hybridAcc (w1 / (w1 + w2)) (w2 / (w1 + w2)) S K).1).Nodup := by
    rw [hybridAcc_keys]
    exact firstSeen_nodup _
  have hpw := pySorted_pairwise_pos Prod.snd
    (hybridAcc (w1 / (w1 + w2)) (w2 / (w1 + w2)) S K).1 hn
  rw [hybridAcc_keys] at hpw
  have hpw2 := List.Pairwise.sublist (List.take_sublist L _) hpw
  rw [List.map_map, List.pairwise_map]
  refine List.Pairwise.imp_of_mem ?_ hpw2
  intro p q hp hq hpq
  have hpmem : p ∈ (hybridAcc (w1 / (w1 + w2)) (w2 / (w1 + w2)) S K).1 :=
    (pySortedDesc_perm _ _).mem_iff.mp (List.mem_of_mem_take hp)
  have hqmem : q ∈ (hybridAcc (w1 / (w1 + w2)) (w2 / (w1 + w2)) S K).1 :=
    (pySortedDesc_perm _ _).mem_iff.mp (List.mem_of_mem_take hq)
  have hidsp : p.1 ∈ idsOf S ++ idsOf K := by
    have hx : p.1 ∈ dkeys (hybridAcc (w1 / (w1 + w2)) (w2 / (w1 + w2)) S K).1 :=
      List.mem_map_of_mem Prod.fst hpmem
    rwa [hybridAcc_keys, mem_firstSeen] at hx
  have hidsq : q.1 ∈ idsOf S ++ idsOf K := by
    have hx : q.1 ∈ dkeys (hybridAcc (w1 / (w1 + w2)) (w2 / (w1 + w2)) S K).1 :=
      List.mem_map_of_mem Prod.fst hqmem
    rwa [hybridAcc_keys, mem_firstSeen] at hx
  have hvp : p.2 = scoreW w1 w2 S K p.1 := by
    have h1 := dictGet_eq_some_of_mem hn hpmem
    have h2 := hybridAcc_scores_val (w1 / (w1 + w2)) (w2 / (w1 + w2)) hS hK p.1 hidsp
    rw [h1] at h2
    exact Option.some.inj h2
  have hvq : q.2 = scoreW w1 w2 S K q.1 := by
    have h1 := dictGet_eq_some_of_mem hn hqmem
    have h2 := hybridAcc_scores_val (w1 / (w1 + w2)) (w2 / (w1 + w2)) hS hK q.1 hidsq
    rw [h1] at h2
    exact Option.some.inj h2
  have hidp : ((dictGet (hybridAcc (w1 / (w1 + w2)) (w2 / (w1 + w2)) S K).2 p.1).getD
      default).id = p.1 := by
    obtain ⟨v, hv⟩ := Option.isSome_iff_exists.mp ((dictGet_isSome_iff _ _).mpr
      (by rw [← hgood.1]; exact List.mem_map_of_mem Prod.fst hpmem))
    rw [hv]
    exact hgood.2 p.1 v hv
  have hidq : ((dictGet (hybridAcc (w1 / (w1 + w2)) (w2 / (w1 + w2)) S K).2 q.1).getD
      default).id = q.1 := by
    obtain ⟨v, hv⟩ := Option.isSome_iff_exists.mp ((dictGet_isSome_iff _ _).mpr
      (by rw [← hgood.1]; exact List.mem_map_of_mem Prod.fst hqmem))
    rw [hv]
    exact hgood.2 q.1 v hv
  simp only [Function.comp_apply, hidp, hidq]
  rcases hpq with h | ⟨he, hlt⟩
  · rw [← hvp, ← hvq]
    exact Or.inl h
  · rw [← hvp, ← hvq]
    exact Or.inr ⟨he, hlt⟩

lemma hybrid_ids_perm {w1 w2 : ℚ} {S K : List RItem} {L : ℕ} {out : List RItem}
    (hne : w1 + w2 ≠ 0) (hL : (idsOf S ++ idsOf K).dedup.length ≤ L)
    (hout : hybrid_search w1 w2 S K L = .ok out) :
    List.Perm (out.map RItem.id) (firstSeen (idsOf S ++ idsOf K)) := by
  rw [hybrid_search_eq w1 w2 S K L hne] at hout
  have hout2 := (Except.ok.inj hout).symm
  subst hout2
  have hgood := hybridAcc_good (w1 / (w1 + w2)) (w2 / (w1 + w2)) S K
  rw [lab2_output_ids _ _ _ _ hgood.1 hgood.2, List.map_take]
  have hlen : ((pySortedDesc Prod.snd
      (hybridAcc (w1 / (w1 + w2)) (w2 / (w1 + w2)) S K).1).map Prod.fst).length ≤ L := by
    rw [List.length_map, (pySortedDesc_perm _ _).length_eq]
    have : (dkeys (hybridAcc (w1 / (w1 + w2)) (w2 / (w1 + w2)) S K).1).length =
        (idsOf S ++ idsOf K).dedup.length := by
      rw [hybridAcc_keys, firstSeen_length_eq_dedup]
    simp only [dkeys, List.length_map] at this
    rw [this]
    exact hL
  rw [List.take_of_length_le hlen]
  have hperm := (pySortedDesc_perm Prod.snd
    (hybridAcc (w1 / (w1 + w2)) (w2 / (w1 + w2)) S K).1).map Prod.fst
  rw [show ((hybridAcc (w1 / (w1 + w2)) (w2 / (w1 + w2)) S K).1).map Prod.fst =
      firstSeen (idsOf S ++ idsOf K) from hybridAcc_keys _ _ S K] at hperm
  exact hperm

/-- C9: with both result sets and all raw scores held fixed, raising the
semantic weight (the other weight fixed, weights re-normalised by their sum)
cannot demote a candidate `a` relative to a candidate `b` when `a` beats `b`
on the semantic method and does not beat `b` on the keyword method: if `a`
ranks at or above `b` in the weighted-fusion output at weight `w1`, it still
does at any weight `w1' ≥ w1`. -/
theorem claim9_weight_monotonicity
    (S K : List RItem) (a b : String) (w1 w1' w2 : ℚ) (L : ℕ)
    (out out' : List RItem)
    (hS : (idsOf S).Nodup) (hK : (idsOf K).Nodup)
    (ha : a ∈ idsOf S ++ idsOf K) (hb : b ∈ idsOf S ++ idsOf K) (hab : a ≠ b)
    (hSab : rawScore S b ≤ rawScore S a) (hKab : rawScore K a ≤ rawScore K b)
    (hw0 : 0 ≤ w1) (hw : w1 ≤ w1') (hw2 : 0 < w2)
    (hL : (idsOf S ++ idsOf K).dedup.length ≤ L)
    (hout : hybrid_search w1 w2 S K L = .ok out)
    (hout' : hybrid_search w1' w2 S K L = .ok out')
    (hrank : posIn a (out.map RItem.id) ≤ posIn b (out.map RItem.id)) :
    posIn a (out'.map RItem.id) ≤ posIn b (out'.map RItem.id) := by
  have hne : w1 + w2 ≠ 0 := ne_of_gt (by linarith)
  have hne' : w1' + w2 ≠ 0 := ne_of_gt (by linarith)
  have hperm := hybrid_ids_perm hne hL hout
  have hperm' := hybrid_ids_perm hne' hL hout'
  have hmema : a ∈ out.map RItem.id := hperm.mem_iff.mpr ((mem_firstSeen _ _).mpr ha)
  have hmemb : b ∈ out.map RItem.id := hperm.mem_iff.mpr ((mem_firstSeen _ _).mpr hb)
  have hmema' : a ∈ out'.map RItem.id := hperm'.mem_iff.mpr ((mem_firstSeen _ _).mpr ha)
  have hmemb' : b ∈ out'.map RItem.id := hperm'.mem_iff.mpr ((mem_firstSeen _ _).mpr hb)
  have hpw := hybrid_ids_pairwise hne hS hK hout
  have hpw' := hybrid_ids_pairwise hne' hS hK hout'
  have hlt : posIn a (out.map RItem.id) < posIn b (out.map RItem.id) := by
    rcases lt_or_eq_of_le hrank with h | h
    · exact h
    · exact absurd (posIn_inj hmema hmemb h) hab
  have hRab := posIn_rel_of_lt hpw hmema hmemb hlt
  have hmono : scoreW w1 w2 S K a - scoreW w1 w2 S K b ≤
      scoreW w1' w2 S K a - scoreW w1' w2 S K b :=
    scoreW_diff_mono (rawScore S a) (rawScore S b) (rawScore K a) (rawScore K b)
      w1 w1' w2 hSab hKab hw0 hw hw2
  have hasym : ∀ u v : String,
      (scoreW w1' w2 S K v < scoreW w1' w2 S K u ∨
        (scoreW w1' w2 S K u = scoreW w1' w2 S K v ∧
          posIn u (firstSeen (idsOf S ++ idsOf K)) <
            posIn v (firstSeen (idsOf S ++ idsOf K)))) →
      (scoreW w1' w2 S K u < scoreW w1' w2 S K v ∨
        (scoreW w1' w2 S K v = scoreW w1' w2 S K u ∧
          posIn v (firstSeen (idsOf S ++ idsOf K)) <
            posIn u (firstSeen (idsOf S ++ idsOf K)))) → False := by
    intro u v h1 h2
    rcases h1 with h1 | ⟨e1, p1⟩ <;> rcases h2 with h2 | ⟨e2, p2⟩
    · exact absurd h2 (lt_asymm h1)
    · rw [e2] at h1
      exact lt_irrefl _ h1
    · rw [e1] at h2
      exact lt_irrefl _ h2
    · exact Nat.lt_asymm p1 p2
  have hR'ab : scoreW w1' w2 S K b < scoreW w1' w2 S K a ∨
      (scoreW w1' w2 S K a = scoreW w1' w2 S K b ∧
        posIn a (firstSeen (idsOf S ++ idsOf K)) <
          posIn b (firstSeen (idsOf S ++ idsOf K))) := by
    rcases hRab with h | ⟨he, hp⟩
    · left
      linarith
    · have h0 : (0 : ℚ) ≤ scoreW w1' w2 S K a - scoreW w1' w2 S K b := by linarith
      rcases eq_or_lt_of_le h0 with h1 | h1
      · right
        exact ⟨by linarith, hp⟩
      · left
        linarith
  exact le_of_lt (posIn_lt_of_rel hpw' hmema' hmemb' hab hR'ab hasym)

lemma hybrid_concrete_out :
    hybrid_search (7/10) (3/10) [xSem, ySem] [yKey, zKey] 3 =
      .ok [wItemX, wItemY, wItemZ] := by
  have hne : (7/10 : ℚ) + 3/10 ≠ 0 := by norm_num
  rw [hybrid_search_eq (7/10) (3/10) [xSem, ySem] [yKey, zKey] 3 hne]
  have hacc1 : (hybridAcc ((7/10) / ((7/10) + (3/10))) ((3/10) / ((7/10) + (3/10)))
      [xSem, ySem] [yKey, zKey]).1 =
      [("x", 63/100), ("y", 59/100), ("z", 9/100)] := by
    norm_num +decide [hybridAcc, hybridStep1, hybridStep2, dictSet, dictGet, dictGetD,
      xSem, ySem, yKey, zKey]
  have hacc2 : (hybridAcc ((7/10) / ((7/10) + (3/10))) ((3/10) / ((7/10) + (3/10)))
      [xSem, ySem] [yKey, zKey]).2 =
      [("x", xSem), ("y", ySem), ("z", zKey)] := by
    norm_num +decide [hybridAcc, hybridStep1, hybridStep2, dictSet, dictGet, dictGetD,
      xSem, ySem, yKey, zKey]
  rw [hacc1, hacc2]
  have hsort : pySortedDesc Prod.snd
      ([("x", (63:ℚ)/100), ("y", 59/100), ("z", 9/100)] : Dict ℚ) =
      [("x", 63/100), ("y", 59/100), ("z", 9/100)] := by
    norm_num +decide [pySortedDesc, sortEnum, List.insertionSort, List.orderedInsert,
      pyKeyLe, List.enum_eq_enumFrom, List.enumFrom]
  rw [hsort]
  norm_num +decide [dictGet, xSem, ySem, zKey, wItemX, wItemY, wItemZ]

/-- Witness for C9 on the worked example: `x` beats `y` on semantic and not
on keyword; its rank relative to `y` is preserved when the semantic weight
stays or grows. -/
theorem claim9_witness :
    posIn "x" ([wItemX, wItemY, wItemZ].map RItem.id) ≤
      posIn "y" ([wItemX, wItemY, wItemZ].map RItem.id) :=
  claim9_weight_monotonicity [xSem, ySem] [yKey, zKey] "x" "y" (7/10) (7/10) (3/10) 3
    [wItemX, wItemY, wItemZ] [wItemX, wItemY, wItemZ]
    (by decide) (by decide) (by decide) (by decide) (by decide)
    (by
      have e1 : rawScore [xSem, ySem] "y" = 1/2 := rfl
      have e2 : rawScore [xSem, ySem] "x" = 9/10 := rfl
      rw [e1, e2]
      norm_num)
    (by
      have e1 : rawScore [yKey, zKey] "x" = 0 := rfl
      have e2 : rawScore [yKey, zKey] "y" = 4/5 := rfl
      rw [e1, e2]
      norm_num)
    (by norm_num) (by norm_num) (by norm_num) (by decide)
    hybrid_concrete_out hybrid_concrete_out (by decide)

